import Mathlib

/-!
# Verification of the Factiva RTF-to-CSV document-recovery pipeline

A shallow embedding of `factivartf2csv.py` (the document-recovery pipeline of
the `Factiva_rtf2csv_download` repository) and proofs about it.

Modelling conventions:
* Python strings are modelled as `List Char` (`Str`), so every string
  operation is a transparent, executable list function.
* Python's regular expressions are embedded as bespoke backtracking matchers,
  one per pattern, following Python's leftmost / greedy / lazy preference
  order for that pattern.
* `\d`, `[A-Z]`, `\w`-style classes are modelled over the character ranges
  this format actually uses: ASCII digits/letters, underscore, plus CJK
  ideographs for word characters.  Unicode printability and whitespace are
  modelled over the control and separator ranges the pipeline touches.
* Fallible Python code (`int(...)`, `datetime(...)`, `.group(1)`) is modelled
  with `Except PErr`; an uncaught Python exception is an `.error`.
-/

set_option maxRecDepth 100000

namespace Factiva

/-- Python strings are modelled as lists of characters. -/
abbrev Str := List Char

/-- Convert a Lean string literal to the `Str` model. -/
def gs (s : String) : Str := s.toList

/-- Characters counted by `c in "0123456789ABCDEFabcdef"` in the source. -/
def isHexDigitCh (c : Char) : Bool :=
  c.isDigit || ('a' ≤ c && c ≤ 'f') || ('A' ≤ c && c ≤ 'F')

/-- Number of hexadecimal-digit characters of a line
(`sum(c in "0123456789ABCDEFabcdef" for c in l)`). -/
def hexCount (l : Str) : Nat := (l.filter isHexDigitCh).length

/-- Python `str.isspace` / `str.strip` whitespace and regex `\s`,
modelled over the whitespace code points relevant to this format. -/
def pyIsSpace (c : Char) : Bool :=
  c = ' ' || c = '\t' || c = '\n' || c = '\r' || c = '\x0b' || c = '\x0c' ||
  (0x1c ≤ c.val && c.val ≤ 0x1f) || c.val = 0x85 || c.val = 0xa0 ||
  c.val = 0x1680 || (0x2000 ≤ c.val && c.val ≤ 0x200a) ||
  c.val = 0x2028 || c.val = 0x2029 || c.val = 0x202f ||
  c.val = 0x205f || c.val = 0x3000

/-- Python `str.isprintable`, modelled over the control characters and
separator code points this pipeline can encounter: C0/C1 controls, DEL and
the common Unicode separator/format characters are non-printable, everything
else is printable. -/
def pyIsPrintable (c : Char) : Bool :=
  !(c.val < 0x20 || c.val = 0x7f || (0x80 ≤ c.val && c.val ≤ 0x9f) ||
    c.val = 0xa0 || c.val = 0xad || c.val = 0x1680 ||
    (0x2000 ≤ c.val && c.val ≤ 0x200f) || (0x2028 ≤ c.val && c.val ≤ 0x202f) ||
    c.val = 0x205f || c.val = 0x2060 || c.val = 0x3000 || c.val = 0xfeff)

/-- Regex word character `\w` (for `\b` boundaries): ASCII alphanumerics,
underscore, and CJK ideographs (which Python's Unicode `\w` also matches). -/
def pyWordChar (c : Char) : Bool :=
  c.isAlphanum || c = '_' || (0x3400 ≤ c.val && c.val ≤ 0x9fff) ||
  (0xf900 ≤ c.val && c.val ≤ 0xfaff)

/-- Python `str.lstrip()`. -/
def lstrip (s : Str) : Str := s.dropWhile pyIsSpace

/-- Python `str.rstrip()`. -/
def rstrip (s : Str) : Str := List.rdropWhile pyIsSpace s

/-- Python `str.strip()`. -/
def pyStrip (s : Str) : Str := rstrip (lstrip s)

/-- Line-break characters recognised by Python `str.splitlines`
(plain `\r\n` is handled separately). -/
def isLineBreakChar (c : Char) : Bool :=
  c = '\n' || c = '\r' || c = '\x0b' || c = '\x0c' ||
  (0x1c ≤ c.val && c.val ≤ 0x1e) || c.val = 0x85 ||
  c.val = 0x2028 || c.val = 0x2029

/-- Worker for `splitlines`: `cur` is the current line accumulated in
reverse. -/
def splitlinesAux : Str → Str → List Str
  | [], cur => if cur.isEmpty then [] else [cur.reverse]
  | '\r' :: '\n' :: rest, cur => cur.reverse :: splitlinesAux rest []
  | c :: rest, cur =>
    if isLineBreakChar c then cur.reverse :: splitlinesAux rest []
    else splitlinesAux rest (c :: cur)

/-- Python `str.splitlines()`. -/
def splitlines (s : Str) : List Str := splitlinesAux s []

/-- `"\n".join(lines)`. -/
def joinNL (ls : List Str) : Str := List.intercalate ['\n'] ls

/-- Worker for `collapseNL`: `k` counts the pending run of newlines. -/
def collapseNLAux : Str → Nat → Str
  | [], k => List.replicate (min k 2) '\n'
  | c :: rest, k =>
    if c = '\n' then collapseNLAux rest (k + 1)
    else List.replicate (min k 2) '\n' ++ c :: collapseNLAux rest 0

/-- `re.sub(r"\n{3,}", "\n\n", s)`: runs of three or more newlines collapse
to exactly two. -/
def collapseNL (s : Str) : Str := collapseNLAux s 0

/-- Worker for `replaceAll` (fuel-driven left-to-right scan). -/
def replaceAllAux (pat rep : Str) : Nat → Str → Str
  | 0, s => s
  | fuel + 1, s =>
    match s with
    | [] => []
    | c :: rest =>
      if !pat.isEmpty && pat.isPrefixOf (c :: rest) then
        rep ++ replaceAllAux pat rep fuel ((c :: rest).drop pat.length)
      else c :: replaceAllAux pat rep fuel rest

/-- Python `str.replace(pat, rep)`: leftmost, non-overlapping. -/
def replaceAll (pat rep s : Str) : Str := replaceAllAux pat rep s.length s

/-- Numeric value of a list of ASCII decimal digits. -/
def natOfDigits (ds : Str) : Nat :=
  ds.foldl (fun a c => a * 10 + (c.toNat - '0'.toNat)) 0

/-- Match `\u(-?\d+)\??` at the head of the string; on success returns the
signed number and the remainder after the optional `?`. -/
def uniMatch : Str → Option (Int × Str)
  | '\\' :: 'u' :: rest =>
    let negRest : Bool × Str :=
      match rest with
      | '-' :: r => (true, r)
      | _ => (false, rest)
    let digits := negRest.2.takeWhile Char.isDigit
    if digits.isEmpty then none
    else
      let rest2 := negRest.2.dropWhile Char.isDigit
      let rest3 :=
        match rest2 with
        | '?' :: r => r
        | _ => rest2
      let n : Int := Int.ofNat (natOfDigits digits)
      some (if negRest.1 then -n else n, rest3)
  | _ => none

/-- `uni_repl`: negative values are wrapped by adding 65536 once, then `chr`
is attempted; failures substitute the empty string.  (Python `chr` also
admits lone surrogates, which `Char` cannot represent; those decode to the
empty string in this model.) -/
def chrRepl (n : Int) : Str :=
  let n2 : Int := if n < 0 then n + 65536 else n
  if 0 ≤ n2 ∧ n2 ≤ 0x10ffff ∧ ¬(0xd800 ≤ n2 ∧ n2 ≤ 0xdfff) then
    [Char.ofNat n2.toNat]
  else []

/-- Worker for `subUni`. -/
def subUniAux : Nat → Str → Str
  | 0, s => s
  | fuel + 1, s =>
    match s with
    | [] => []
    | c :: rest =>
      match uniMatch (c :: rest) with
      | some nr => chrRepl nr.1 ++ subUniAux fuel nr.2
      | none => c :: subUniAux fuel rest

/-- `re.sub(r"\\u(-?\d+)\??", uni_repl, s)`. -/
def subUni (s : Str) : Str := subUniAux s.length s

/-- Value of one hexadecimal digit character. -/
def hexVal (c : Char) : Nat :=
  if c.isDigit then c.toNat - '0'.toNat
  else if 'a' ≤ c ∧ c ≤ 'f' then c.toNat - 'a'.toNat + 10
  else if 'A' ≤ c ∧ c ≤ 'F' then c.toNat - 'A'.toNat + 10
  else 0

/-- Decode one byte with the cp1252 ("legacy Western") code page,
`errors="ignore"`: the five unassigned bytes decode to nothing. -/
def cp1252Char (b : Nat) : Str :=
  if b = 0x80 then [Char.ofNat 0x20ac]
  else if b = 0x82 then [Char.ofNat 0x201a]
  else if b = 0x83 then [Char.ofNat 0x0192]
  else if b = 0x84 then [Char.ofNat 0x201e]
  else if b = 0x85 then [Char.ofNat 0x2026]
  else if b = 0x86 then [Char.ofNat 0x2020]
  else if b = 0x87 then [Char.ofNat 0x2021]
  else if b = 0x88 then [Char.ofNat 0x02c6]
  else if b = 0x89 then [Char.ofNat 0x2030]
  else if b = 0x8a then [Char.ofNat 0x0160]
  else if b = 0x8b then [Char.ofNat 0x2039]
  else if b = 0x8c then [Char.ofNat 0x0152]
  else if b = 0x8e then [Char.ofNat 0x017d]
  else if b = 0x91 then [Char.ofNat 0x2018]
  else if b = 0x92 then [Char.ofNat 0x2019]
  else if b = 0x93 then [Char.ofNat 0x201c]
  else if b = 0x94 then [Char.ofNat 0x201d]
  else if b = 0x95 then [Char.ofNat 0x2022]
  else if b = 0x96 then [Char.ofNat 0x2013]
  else if b = 0x97 then [Char.ofNat 0x2014]
  else if b = 0x98 then [Char.ofNat 0x02dc]
  else if b = 0x99 then [Char.ofNat 0x2122]
  else if b = 0x9a then [Char.ofNat 0x0161]
  else if b = 0x9b then [Char.ofNat 0x203a]
  else if b = 0x9c then [Char.ofNat 0x0153]
  else if b = 0x9e then [Char.ofNat 0x017e]
  else if b = 0x9f then [Char.ofNat 0x0178]
  else if b = 0x81 ∨ b = 0x8d ∨ b = 0x8f ∨ b = 0x90 ∨ b = 0x9d then []
  else [Char.ofNat b]

/-- Worker for `subHex`: replaces `\'hh` escapes. -/
def subHexAux : Nat → Str → Str
  | 0, s => s
  | fuel + 1, s =>
    match s with
    | [] => []
    | '\\' :: '\'' :: h1 :: h2 :: rest =>
      if isHexDigitCh h1 && isHexDigitCh h2 then
        cp1252Char (hexVal h1 * 16 + hexVal h2) ++ subHexAux fuel rest
      else '\\' :: subHexAux fuel ('\'' :: h1 :: h2 :: rest)
    | c :: rest => c :: subHexAux fuel rest

/-- `re.sub(r"\\'([0-9a-fA-F]{2})", hex_repl, s)`. -/
def subHex (s : Str) : Str := subHexAux s.length s

/-- Match `\\[a-zA-Z]+\d* ?` at the head; on success returns the remainder. -/
def ctrlWordMatch : Str → Option Str
  | '\\' :: rest =>
    let letters := rest.takeWhile Char.isAlpha
    if letters.isEmpty then none
    else
      let r1 := rest.dropWhile Char.isAlpha
      let r2 := r1.dropWhile Char.isDigit
      some (match r2 with
            | ' ' :: r => r
            | _ => r2)
  | _ => none

/-- Worker for `subCtrlWord`. -/
def subCtrlWordAux : Nat → Str → Str
  | 0, s => s
  | fuel + 1, s =>
    match s with
    | [] => []
    | c :: rest =>
      match ctrlWordMatch (c :: rest) with
      | some r => subCtrlWordAux fuel r
      | none => c :: subCtrlWordAux fuel rest

/-- `re.sub(r"\\[a-zA-Z]+\d* ?", "", s)`: delete control words. -/
def subCtrlWord (s : Str) : Str := subCtrlWordAux s.length s

/-- Worker for `subCtrlSym`. -/
def subCtrlSymAux : Nat → Str → Str
  | 0, s => s
  | fuel + 1, s =>
    match s with
    | [] => []
    | '\\' :: c :: rest =>
      if c.isAlpha then '\\' :: subCtrlSymAux fuel (c :: rest)
      else subCtrlSymAux fuel rest
    | c :: rest => c :: subCtrlSymAux fuel rest

/-- `re.sub(r"\\[^a-zA-Z]", "", s)`: delete remaining non-letter escapes. -/
def subCtrlSym (s : Str) : Str := subCtrlSymAux s.length s

/-- Space or tab (the `[ \t]` class). -/
def isSpaceTab (c : Char) : Bool := c = ' ' || c = '\t'

/-- Worker for `subSpaceTabNL`. -/
def subSpaceTabNLAux : Nat → Str → Str
  | 0, s => s
  | fuel + 1, s =>
    match s with
    | [] => []
    | c :: rest =>
      if isSpaceTab c then
        match (c :: rest).dropWhile isSpaceTab with
        | '\n' :: r => '\n' :: subSpaceTabNLAux fuel r
        | _ => c :: subSpaceTabNLAux fuel rest
      else c :: subSpaceTabNLAux fuel rest

/-- `re.sub(r"[ \t]+\n", "\n", s)`: strip trailing whitespace before a
newline. -/
def subSpaceTabNL (s : Str) : Str := subSpaceTabNLAux s.length s

/-- `rtf_to_text`: strip the RTF dialect down to plain text
(source lines 19-54). -/
def rtf_to_text (rtf : Str) : Str :=
  let s := replaceAll (gs "\r\n") (gs "\n") rtf
  let s := replaceAll (gs "\r") (gs "\n") s
  let s := subUni s
  let s := subHex s
  let s := replaceAll (gs "\\par") (gs "\n") s
  let s := replaceAll (gs "\\line") (gs "\n") s
  let s := subCtrlWord s
  let s := subCtrlSym s
  let s := s.filter (fun c => c.val != 0x7b && c.val != 0x7d)
  let s := collapseNL s
  let s := subSpaceTabNL s
  pyStrip s

/-- One iteration of the `clean_factiva_text` loop: `none` means the line is
dropped, `some l2` means `l2` is appended to the output lines
(source lines 59-69). -/
def cleanLineKeep (line : Str) : Option Str :=
  let l := pyStrip line
  if l.isEmpty then some []
  else if 120 < l.length ∧ 3 * l.length < 4 * hexCount l then none
  else some (l.map (fun c => if pyIsPrintable c then c else ' '))

/-- `clean_factiva_text` (source lines 56-72).  The ratio test
`hex_chars / max(1, len(l)) > 0.75` is modelled exactly as the rational
inequality `4 * hex > 3 * len` (the line is non-blank, so `len ≥ 1`). -/
def clean_factiva_text (t : Str) : Str :=
  let outLines := (splitlines t).filterMap cleanLineKeep
  pyStrip (collapseNL (joinNL outLines))

/-- Worker for `subHyperlink`: `re.sub(r'HYPERLINK\s+toc\d+"', "\n", t)`. -/
def subHyperlinkAux : Nat → Str → Str
  | 0, s => s
  | fuel + 1, s =>
    match s with
    | [] => []
    | c :: rest =>
      if (gs "HYPERLINK").isPrefixOf (c :: rest) then
        let a1 := (c :: rest).drop 9
        let w := a1.takeWhile pyIsSpace
        let a2 := a1.dropWhile pyIsSpace
        if !w.isEmpty && (gs "toc").isPrefixOf a2 then
          let a3 := a2.drop 3
          let ds := a3.takeWhile Char.isDigit
          match a3.dropWhile Char.isDigit with
          | '"' :: r =>
            if ds.isEmpty then c :: subHyperlinkAux fuel rest
            else '\n' :: subHyperlinkAux fuel r
          | _ => c :: subHyperlinkAux fuel rest
        else c :: subHyperlinkAux fuel rest
      else c :: subHyperlinkAux fuel rest

/-- `re.sub(r'HYPERLINK\s+toc\d+"', "\n", t)`. -/
def subHyperlink (s : Str) : Str := subHyperlinkAux s.length s

/-- Is the next character a word character (used for `\b` at a match end)? -/
def wordAt (s : Str) : Bool :=
  match s with
  | [] => false
  | c :: _ => pyWordChar c

/-- Worker for `subDPage`: `re.sub(r"\bd Page\b.*", "", t)`.  `prev` is the
character before the current scan position (for the leading `\b`). -/
def subDPageAux : Nat → Option Char → Str → Str
  | 0, _, s => s
  | fuel + 1, prev, s =>
    match s with
    | [] => []
    | c :: rest =>
      let prevNonWord : Bool :=
        match prev with
        | some p => !pyWordChar p
        | none => true
      if prevNonWord && (gs "d Page").isPrefixOf (c :: rest) && !wordAt ((c :: rest).drop 6) then
        subDPageAux fuel (some 'e') (((c :: rest).drop 6).dropWhile (fun d => d != '\n'))
      else c :: subDPageAux fuel (some c) rest

/-- `re.sub(r"\bd Page\b.*", "", t)`. -/
def subDPage (s : Str) : Str := subDPageAux s.length none s

/-- Worker for `subPageNum pat`: `re.sub(r"\b" + pat + r"\d+\b", "", t)`. -/
def subPageNumAux (pat : Str) : Nat → Option Char → Str → Str
  | 0, _, s => s
  | fuel + 1, prev, s =>
    match s with
    | [] => []
    | c :: rest =>
      let prevNonWord : Bool :=
        match prev with
        | some p => !pyWordChar p
        | none => true
      if prevNonWord && pat.isPrefixOf (c :: rest) then
        let a1 := (c :: rest).drop pat.length
        let ds := a1.takeWhile Char.isDigit
        let a2 := a1.dropWhile Char.isDigit
        if !ds.isEmpty && !wordAt a2 then
          subPageNumAux pat fuel (some (ds.getLastD '0')) a2
        else c :: subPageNumAux pat fuel (some c) rest
      else c :: subPageNumAux pat fuel (some c) rest

/-- `re.sub(r"\bPAGE\d+\b", "", t)` (and the `NUMPAGES` variant). -/
def subPageNum (pat s : Str) : Str := subPageNumAux pat s.length none s

/-- Worker for `subMultiSpace`: `re.sub(r"[ \t]{2,}", " ", t)`. -/
def subMultiSpaceAux : Nat → Str → Str
  | 0, s => s
  | fuel + 1, s =>
    match s with
    | [] => []
    | c :: rest =>
      if isSpaceTab c then
        let run := (c :: rest).takeWhile isSpaceTab
        if 2 ≤ run.length then
          ' ' :: subMultiSpaceAux fuel ((c :: rest).dropWhile isSpaceTab)
        else c :: subMultiSpaceAux fuel rest
      else c :: subMultiSpaceAux fuel rest

/-- `re.sub(r"[ \t]{2,}", " ", t)`. -/
def subMultiSpace (s : Str) : Str := subMultiSpaceAux s.length s

/-- Worker for `subNLIndent`: `re.sub(r"\n[ \t]+", "\n", t)`. -/
def subNLIndentAux : Nat → Str → Str
  | 0, s => s
  | fuel + 1, s =>
    match s with
    | [] => []
    | '\n' :: rest =>
      let run := rest.takeWhile isSpaceTab
      if run.isEmpty then '\n' :: subNLIndentAux fuel rest
      else '\n' :: subNLIndentAux fuel (rest.dropWhile isSpaceTab)
    | c :: rest => c :: subNLIndentAux fuel rest

/-- `re.sub(r"\n[ \t]+", "\n", t)`. -/
def subNLIndent (s : Str) : Str := subNLIndentAux s.length s

/-- `preprocess` (source lines 74-83). -/
def preprocess (t : Str) : Str :=
  let t := replaceAll (gs "\\'") (gs "'") t
  let t := subHyperlink t
  let t := subDPage t
  let t := subPageNum (gs "PAGE") t
  let t := subPageNum (gs "NUMPAGES") t
  let t := collapseNL t
  let t := subMultiSpace t
  let t := subNLIndent t
  pyStrip t

/-- `WORDCOUNT_RE.search(l)` with capture group 1, i.e.
`^\s*([\d,]+)\s*字` at the start of the line (source line 87).  Giving back
characters from the greedy `[\d,]+` or `\s*` never helps this pattern, so
maximal munch is exact.  `\d` is modelled as ASCII digits (the spec's §9
notes the count is assumed to be in Arabic numerals). -/
def wordcount_capture (l : Str) : Option Str :=
  if ((l.dropWhile pyIsSpace).takeWhile (fun c => c.isDigit || c = ',')).isEmpty then
    none
  else
    match ((l.dropWhile pyIsSpace).dropWhile
        (fun c => c.isDigit || c = ',')).dropWhile pyIsSpace with
    | c :: _ =>
      if c = '字' then
        some ((l.dropWhile pyIsSpace).takeWhile (fun c => c.isDigit || c = ','))
      else none
    | [] => none

/-- Errors modelling uncaught Python exceptions inside the pipeline. -/
inductive PErr where
  /-- `datetime(...)` raised `ValueError` (field out of range). -/
  | dateValue
  /-- `int(...)` raised `ValueError`. -/
  | intValue
  /-- `.group(1)` was taken on a failed match (cannot actually happen on
  anchor lines, but kept so the model is total). -/
  | reGroup
deriving DecidableEq, Repr

/-- The result of `datetime.datetime(y, mo, d, hh, mm)` in the source. -/
structure PyDateTime where
  year : Nat
  month : Nat
  day : Nat
  hour : Nat
  minute : Nat
deriving DecidableEq, Repr

/-- Any character but a newline (regex `.` without `DOTALL`). -/
def notNL (c : Char) : Bool := c != '\n'

/-- Consume exactly `k` non-newline characters (`.{k}`); `none` on failure. -/
def gapTake : Nat → Str → Option Str
  | 0, s => some s
  | _ + 1, [] => none
  | k + 1, c :: rest => if notNL c then gapTake k rest else none

/-- Lazy gap `.{0,10}?`: try gap sizes 0, 1, ..., 10 in order, passing the
remainder to the continuation `k`. -/
def tryGaps {α : Type} (s : Str) (k : Str → Option α) : Option α :=
  (List.range 11).findSome? (fun g =>
    match gapTake g s with
    | some rest => k rest
    | none => none)

/-- Two ASCII digits at the head. -/
def digits2 : Str → Option (Nat × Str)
  | a :: b :: rest =>
    if a.isDigit && b.isDigit then
      some ((a.toNat - '0'.toNat) * 10 + (b.toNat - '0'.toNat), rest)
    else none
  | _ => none

/-- One ASCII digit at the head. -/
def digits1 : Str → Option (Nat × Str)
  | a :: rest => if a.isDigit then some (a.toNat - '0'.toNat, rest) else none
  | [] => none

/-- Greedy `(\d{1,2})`: two digits are preferred; if the continuation `k`
fails, backtrack to one digit. -/
def tryNum2 {α : Type} (s : Str) (k : Nat → Str → Option α) : Option α :=
  match digits2 s with
  | some nr =>
    match k nr.1 nr.2 with
    | some r => some r
    | none =>
      match digits1 s with
      | some mr => k mr.1 mr.2
      | none => none
  | none =>
    match digits1 s with
    | some mr => k mr.1 mr.2
    | none => none

/-- The optional time group `(?:.{0,10}?(\d{1,2}):(\d{2}))?` after `日`.
Returns `(hour, minute)` if the group matches, else `none` (the group then
matches the empty string). -/
def timeTry (s : Str) : Option (Nat × Nat) :=
  tryGaps s (fun r1 =>
    tryNum2 r1 (fun hh r2 =>
      match r2 with
      | ':' :: m1 :: m2 :: _ =>
        if m1.isDigit && m2.isDigit then
          some (hh, (m1.toNat - '0'.toNat) * 10 + (m2.toNat - '0'.toNat))
        else none
      | _ => none))

/-- Try the date pattern
`(\d{4}).{0,10}?(\d{1,2}).{0,10}?(\d{1,2}).{0,10}?日(?:.{0,10}?(\d{1,2}):(\d{2}))?`
anchored at the start of `s`, with Python's preference order (lazy gaps
smallest-first, greedy digit groups largest-first).  Missing time fields
default to 0 (`int(hh or 0)`). -/
def dateMatchAt (s : Str) : Option PyDateTime :=
  match s with
  | a :: b :: c :: d :: rest =>
    if a.isDigit && b.isDigit && c.isDigit && d.isDigit then
      let y := ((a.toNat - '0'.toNat) * 10 + (b.toNat - '0'.toNat)) * 100 +
               (c.toNat - '0'.toNat) * 10 + (d.toNat - '0'.toNat)
      tryGaps rest (fun r1 =>
        tryNum2 r1 (fun mo r2 =>
          tryGaps r2 (fun r3 =>
            tryNum2 r3 (fun dd r4 =>
              tryGaps r4 (fun r5 =>
                match r5 with
                | e :: r6 =>
                  if e = '日' then
                    match timeTry r6 with
                    | some hm => some ⟨y, mo, dd, hm.1, hm.2⟩
                    | none => some ⟨y, mo, dd, 0, 0⟩
                  else none
                | [] => none)))))
    else none
  | _ => none

/-- `re.search` for the date pattern: leftmost start position wins. -/
def dateSearchAux : Nat → Str → Option PyDateTime
  | 0, _ => none
  | fuel + 1, s =>
    match dateMatchAt s with
    | some dt => some dt
    | none =>
      match s with
      | [] => none
      | _ :: rest => dateSearchAux fuel rest

/-- Gregorian leap year, as `datetime` uses. -/
def isLeapYear (y : Nat) : Bool :=
  y % 4 == 0 && (y % 100 != 0 || y % 400 == 0)

/-- Days in a month, as `datetime` uses. -/
def daysInMonth (y m : Nat) : Nat :=
  if m = 2 then (if isLeapYear y then 29 else 28)
  else if m = 4 ∨ m = 6 ∨ m = 9 ∨ m = 11 then 30
  else 31

/-- The argument ranges `datetime.datetime(y, mo, d, hh, mm)` accepts without
raising `ValueError`. -/
def dtValid (dt : PyDateTime) : Bool :=
  decide (1 ≤ dt.year ∧ dt.year ≤ 9999 ∧ 1 ≤ dt.month ∧ dt.month ≤ 12 ∧
          1 ≤ dt.day ∧ dt.day ≤ daysInMonth dt.year dt.month ∧
          dt.hour ≤ 23 ∧ dt.minute ≤ 59)

/-- `parse_factiva_date` (source lines 90-97): `None` when the pattern does
not match; an error when `datetime(...)` raises `ValueError`. -/
def parse_factiva_date (line : Str) : Except PErr (Option PyDateTime) :=
  match dateSearchAux ((pyStrip line).length + 1) (pyStrip line) with
  | none => .ok none
  | some dt => if dtValid dt then .ok (some dt) else .error .dateValue

/-- Decimal digits of `n`, most significant first (fuel-driven so that it
reduces in the kernel). -/
def natDigitsAux : Nat → Nat → Str
  | 0, _ => []
  | fuel + 1, n =>
    if n < 10 then [Char.ofNat ('0'.toNat + n)]
    else natDigitsAux fuel (n / 10) ++ [Char.ofNat ('0'.toNat + n % 10)]

/-- Decimal digits of `n`. -/
def natDigits (n : Nat) : Str := natDigitsAux (n + 1) n

/-- Zero-pad a number to width `w`. -/
def padNum (w n : Nat) : Str :=
  let ds := natDigits n
  List.replicate (w - ds.length) '0' ++ ds

/-- `dt.isoformat(sep=" ")` for a datetime with zero seconds and zero
microseconds: `YYYY-MM-DD HH:MM:SS`. -/
def isoFormat (dt : PyDateTime) : Str :=
  padNum 4 dt.year ++ '-' :: padNum 2 dt.month ++ '-' :: padNum 2 dt.day ++
  ' ' :: padNum 2 dt.hour ++ ':' :: padNum 2 dt.minute ++ gs ":00"

/-- Is `n` a substring of the second argument (Python `n in s`)? -/
def isSubstr : Str → Str → Bool
  | n, [] => n.isEmpty
  | n, h :: t => List.isPrefixOf n (h :: t) || isSubstr n t

/-- Case-insensitive literal prefix match; returns the remainder. -/
def literalCIAfter : Str → Str → Option Str
  | [], s => some s
  | _ :: _, [] => none
  | c :: cs, d :: ds =>
    if c.toLower == d.toLower then literalCIAfter cs ds else none

/-- `re.search(r"\b<w>\b", s, re.I)` for a word `w` of letters:
scan every position, requiring a non-word character (or edge) on both
sides.  `prev` is the character before the scan position. -/
def searchWordCIAux (w : Str) : Option Char → Str → Bool
  | _, [] => false
  | prev, c :: rest =>
    let prevNonWord : Bool :=
      match prev with
      | some p => !pyWordChar p
      | none => true
    (prevNonWord &&
      (match literalCIAfter w (c :: rest) with
       | some after => !wordAt after
       | none => false)) || searchWordCIAux w (some c) rest

/-- `re.search(r"\b<w>\b", s, re.I)`. -/
def searchWordCI (w s : Str) : Bool := searchWordCIAux w none s

/-- `detect_language` (source lines 99-105). -/
def detect_language (line : Str) : Str :=
  let l := pyStrip line
  if isSubstr (gs "英文") l || (isSubstr (gs "英") l && isSubstr (gs "文") l) ||
     searchWordCI (gs "English") l then gs "英文"
  else if isSubstr (gs "中文") l || (isSubstr (gs "中") l && isSubstr (gs "文") l) ||
     searchWordCI (gs "Chinese") l then gs "中文"
  else []

/-- `re.sub(r"^(?:toc\d+)+", "", title)`: drop leading repeated
`toc<digits>` groups. -/
def tocRepsDrop : Nat → Str → Str
  | 0, s => s
  | fuel + 1, s =>
    if (gs "toc").isPrefixOf s then
      let after := s.drop 3
      let ds := after.takeWhile Char.isDigit
      if ds.isEmpty then s
      else tocRepsDrop fuel (after.dropWhile Char.isDigit)
    else s

/-- `clean_title` (source lines 107-110). -/
def clean_title (title : Str) : Str :=
  let t := pyStrip (tocRepsDrop title.length title)
  pyStrip (t.dropWhile (fun c => !pyWordChar c))

/-- The corruption test of `body_sanitize` on a stripped line:
`len(l) > 80 and hex_chars / len(l) > 0.8`, i.e. `5 * hex > 4 * len`. -/
def bodyLineBad (l : Str) : Bool :=
  decide (80 < l.length) && decide (4 * l.length < 5 * hexCount l)

/-- The line loop of `body_sanitize` (source lines 113-122): a corrupted
line `break`s, discarding it and every later line. -/
def bodyScan : List Str → List Str
  | [] => []
  | ln :: rest =>
    let l := pyStrip ln
    if l.isEmpty then [] :: bodyScan rest
    else if bodyLineBad l then []
    else rstrip ln :: bodyScan rest

/-- `body_sanitize` (source lines 112-125). -/
def body_sanitize (body : Str) : Str :=
  collapseNL (pyStrip (joinNL (bodyScan (splitlines body))))

/-- `hi, hi-1, ..., lo` (empty when `hi < lo`); the order a greedy
quantifier tries its repetition counts. -/
def downRange (hi lo : Nat) : List Nat :=
  (List.range' lo (hi + 1 - lo)).reverse

/-- Match `FILE_ID_PATTERN` = `\b[A-Z]{2,10}\d{8,}[A-Za-z0-9]{3,}\b`
(source line 88) at the start of `s`; `prevWord` says whether the character
before `s` is a word character.  Returns the match length.  All three
quantifiers are greedy, with full backtracking over their counts. -/
def fileIdMatchLen (prevWord : Bool) (s : Str) : Option Nat :=
  if prevWord then none
  else
    let upRun := (s.takeWhile Char.isUpper).length
    (downRange (min upRun 10) 2).findSome? (fun k =>
      let s1 := s.drop k
      let dRun := (s1.takeWhile Char.isDigit).length
      (downRange dRun 8).findSome? (fun dn =>
        let s2 := s1.drop dn
        let aRun := (s2.takeWhile Char.isAlphanum).length
        (downRange aRun 3).findSome? (fun an =>
          if wordAt (s2.drop an) then none else some (k + dn + an))))

/-- `FILE_ID_PATTERN.findall(text)`: all non-overlapping matches, left to
right.  A match always ends in an alphanumeric character, so the boundary
context after a match is "word". -/
def fileIdFindAll : Nat → Bool → Str → List Str
  | 0, _, _ => []
  | fuel + 1, prevWord, s =>
    match s with
    | [] => []
    | c :: rest =>
      match fileIdMatchLen prevWord (c :: rest) with
      | some n => (c :: rest).take n :: fileIdFindAll fuel true ((c :: rest).drop n)
      | none => fileIdFindAll fuel (pyWordChar c) rest

/-- `re.search(r"文件\D{0,15}(" + FILE_ID_PATTERN.pattern + r")", text)`:
leftmost occurrence of `文件`, then a greedy gap of up to 15 non-digit
characters, then the file-id group (source line 129). -/
def fileIdSearchNear : Nat → Str → Option Str
  | 0, _ => none
  | fuel + 1, s =>
    match s with
    | [] => none
    | c :: rest =>
      let tryHere : Option Str :=
        match c, rest with
        | '文', d :: rest2 =>
          if d = '件' then
            let gapMax := min 15 ((rest2.takeWhile (fun x => !x.isDigit)).length)
            (downRange gapMax 0).findSome? (fun g =>
              let s2 := rest2.drop g
              let prevW := if g = 0 then pyWordChar '件'
                           else pyWordChar (rest2.getD (g - 1) ' ')
              (fileIdMatchLen prevW s2).map (fun n => s2.take n))
          else none
        | _, _ => none
      match tryHere with
      | some x => some x
      | none => fileIdSearchNear fuel rest

/-- `extract_file_id` (source lines 127-133). -/
def extract_file_id (text : Str) : Str :=
  match fileIdSearchNear (text.length + 1) text with
  | some x => x
  | none =>
    match (fileIdFindAll (text.length + 1) false text).getLast? with
    | some x => x
    | none => []

/-- The keyword marker literal (source line 245). -/
def kwLiteral : Str := gs "Keywords for this news article include:"

/-- `re.search(r"Keywords for this news article include:\s*(.+)", body)`:
returns capture group 1.  `\s*` is greedy and backtracks so that `(.+)` can
still take at least one non-newline character. -/
def keywordsSearch : Nat → Str → Option Str
  | 0, _ => none
  | fuel + 1, s =>
    match s with
    | [] => none
    | c :: rest =>
      let tryHere : Option Str :=
        if kwLiteral.isPrefixOf (c :: rest) then
          let after := (c :: rest).drop kwLiteral.length
          let w := (after.takeWhile pyIsSpace).length
          (downRange w 0).findSome? (fun t =>
            let cap := (after.drop t).takeWhile notNL
            if cap.isEmpty then none else some cap)
        else none
      match tryHere with
      | some cap => some cap
      | none => keywordsSearch fuel rest

/-- Python `str.rstrip(".")`. -/
def rstripDots (s : Str) : Str := List.rdropWhile (· == '.') s

/-- Match `--\s*By\s+([^-\n]+)` at the start of `s`; returns capture 1.
`\s+` is greedy and backtracks down to one character, since `[^-\n]` also
matches whitespace. -/
def byAuthorMatchAt (s : Str) : Option Str :=
  match s with
  | '-' :: '-' :: rest =>
    let s1 := rest.dropWhile pyIsSpace
    if (gs "By").isPrefixOf s1 then
      let s2 := s1.drop 2
      let w := (s2.takeWhile pyIsSpace).length
      (downRange w 1).findSome? (fun t =>
        let cap := (s2.drop t).takeWhile (fun d => d != '-' && d != '\n')
        if cap.isEmpty then none else some cap)
    else none
  | _ => none

/-- `re.search(r"--\s*By\s+([^-\n]+)", body)` (source line 253). -/
def byAuthorSearch : Nat → Str → Option Str
  | 0, _ => none
  | fuel + 1, s =>
    match s with
    | [] => none
    | c :: rest =>
      match byAuthorMatchAt (c :: rest) with
      | some cap => some cap
      | none => byAuthorSearch fuel rest

/-- The static geography set `GEO` (source lines 135-139).  Python set
membership is exact string equality. -/
def GEO : List Str :=
  [gs "Asia", gs "China", gs "Hong Kong", gs "Macau", gs "Macao", gs "Taiwan",
   gs "United States", gs "U.S.", gs "US", gs "UK", gs "Europe",
   gs "Beijing", gs "Shanghai", gs "Japan", gs "Korea", gs "South Korea",
   gs "North Korea", gs "Germany", gs "France", gs "Netherlands",
   gs "Ireland", gs "Switzerland", gs "Latin America", gs "Australia",
   gs "Canada", gs "Singapore", gs "India", gs "Russia", gs "Africa",
   gs "Middle East"]

/-- The static industry-hint list `INDUSTRY_HINTS` (source lines 140-143). -/
def INDUSTRY_HINTS : List Str :=
  [gs "Finance", gs "Investment", gs "Materials", gs "Technology", gs "Energy",
   gs "Healthcare", gs "Pharmaceutical", gs "Mining", gs "Metals", gs "Oil",
   gs "Gas", gs "Shipping", gs "Logistics", gs "Automotive", gs "Real Estate",
   gs "Telecom", gs "AI", gs "Chip"]

/-- Python `str.lower()` (ASCII case mapping suffices for the hint list). -/
def lowerStr (s : Str) : Str := s.map Char.toLower

/-- `any(h.lower() in p.lower() for h in INDUSTRY_HINTS)`. -/
def industryHit (p : Str) : Bool :=
  INDUSTRY_HINTS.any (fun h => isSubstr (lowerStr h) (lowerStr p))

/-- Prepend a character to the first part of a split. -/
def consHead (c : Char) : List Str → List Str
  | [] => [[c]]
  | h :: t => (c :: h) :: t

/-- Python `kw.split(",")`: split at every comma (no separator merging). -/
def splitComma : Str → List Str
  | [] => [[]]
  | c :: rest => if c = ',' then [] :: splitComma rest else consHead c (splitComma rest)

/-- `parts = [p.strip() for p in kw.split(",") if p.strip()]`
(source line 151). -/
def kwParts (kw : Str) : List Str :=
  ((splitComma kw).map pyStrip).filter (fun p => !p.isEmpty)

/-- The classification loop of `split_keywords` (source lines 152-159),
returning `(topics, regions, industries)`. -/
def classifyParts : List Str → List Str × List Str × List Str
  | [] => ([], [], [])
  | p :: rest =>
    if GEO.contains p then
      ((classifyParts rest).1, p :: (classifyParts rest).2.1, (classifyParts rest).2.2)
    else if industryHit p then
      ((classifyParts rest).1, (classifyParts rest).2.1, p :: (classifyParts rest).2.2)
    else
      (p :: (classifyParts rest).1, (classifyParts rest).2.1, (classifyParts rest).2.2)

/-- `split_keywords` (source lines 150-160): `(topics, regions, industries)`. -/
def split_keywords (kw : Str) : List Str × List Str × List Str :=
  classifyParts (kwParts kw)

/-- The corporate-suffix alternation of `COMPANY_RE`, in source order
(source lines 145-148). -/
def COMPANY_SUFFIXES : List Str :=
  [gs "Inc.", gs "Corp.", gs "Corporation", gs "Ltd.", gs "Limited",
   gs "Group", gs "Company", gs "Co.", gs "PLC", gs "LLC", gs "S.A.", gs "AG"]

/-- The token character class `[A-Za-z0-9&.\-]` of `COMPANY_RE`. -/
def companyTokenChar (c : Char) : Bool :=
  c.isAlpha || c.isDigit || c = '&' || c = '.' || c = '-'

/-- One capitalized token `[A-Z][A-Za-z0-9&.\-]*` at the head of `s`;
returns its length.  The greedy star never has to give characters back
because the pattern continues with `\s+`. -/
def companyTokenLen (s : Str) : Option Nat :=
  match s with
  | c :: _ => if c.isUpper then some ((s.takeWhile companyTokenChar).length) else none
  | [] => none

/-- The suffix part `\s+(?:Inc\.|Corp\.|...|AG)` followed by the closing
`\b`, at the head of `s`; returns the consumed length.  Alternatives are
tried in source order; an alternative whose trailing `\b` fails backtracks
to the next alternative. -/
def companySuffixTry (s : Str) : Option Nat :=
  let w := (s.takeWhile pyIsSpace).length
  if w = 0 then none
  else
    let s1 := s.drop w
    COMPANY_SUFFIXES.findSome? (fun alt =>
      if alt.isPrefixOf s1 then
        let lastWord := pyWordChar (alt.getLastD ' ')
        if lastWord != wordAt (s1.drop alt.length) then some (w + alt.length)
        else none
      else none)

/-- The tail `(?:\s+[A-Z][A-Za-z0-9&.\-]*){0,6}\s+(?:suffixes)\b` of
`COMPANY_RE` at the head of `s`, with at most `reps` further tokens.
Greedy: another token is preferred; if the rest fails, the suffix is tried
at the current position. -/
def companyTailTry : Nat → Str → Option Nat
  | 0, s => companySuffixTry s
  | reps + 1, s =>
    let deeper : Option Nat :=
      let w := (s.takeWhile pyIsSpace).length
      if w = 0 then none
      else
        match companyTokenLen (s.drop w) with
        | some tl => (companyTailTry reps (s.drop (w + tl))).map (fun n => w + tl + n)
        | none => none
    match deeper with
    | some n => some n
    | none => companySuffixTry s

/-- `COMPANY_RE` anchored at the start of `s` (`prevWord` gives the `\b`
context before `s`); returns the length of capture group 1, which spans the
whole match. -/
def companyMatchAt (prevWord : Bool) (s : Str) : Option Nat :=
  if prevWord then none
  else
    match companyTokenLen s with
    | some tl => (companyTailTry 6 (s.drop tl)).map (fun n => tl + n)
    | none => none

/-- `COMPANY_RE.finditer(text)`: all non-overlapping matches (group 1), left
to right. -/
def companyFindAll : Nat → Bool → Str → List Str
  | 0, _, _ => []
  | fuel + 1, prevWord, s =>
    match s with
    | [] => []
    | c :: rest =>
      match companyMatchAt prevWord (c :: rest) with
      | some n =>
        (c :: rest).take n ::
          companyFindAll fuel (pyWordChar ((c :: rest).getD (n - 1) ' ')) ((c :: rest).drop n)
      | none => companyFindAll fuel (pyWordChar c) rest

/-- Code-point lexicographic order on strings (Python `<` on `str`). -/
def lexLt : Str → Str → Bool
  | [], [] => false
  | [], _ :: _ => true
  | _ :: _, [] => false
  | a :: as, b :: bs =>
    if a.val < b.val then true
    else if a.val = b.val then lexLt as bs
    else false

/-- Insert into a sorted duplicate-free list, keeping it sorted and
duplicate-free. -/
def insertSortedUnique (x : Str) : List Str → List Str
  | [] => [x]
  | y :: ys =>
    if x = y then y :: ys
    else if lexLt x y then x :: y :: ys
    else y :: insertSortedUnique x ys

/-- Python `sorted(set(l))` for strings. -/
def sortedUnique (l : List Str) : List Str :=
  l.foldl (fun acc x => insertSortedUnique x acc) []

/-- `sorted(set(m.group(1) for m in COMPANY_RE.finditer(text)))`
(source line 284). -/
def extract_companies (text : Str) : List Str :=
  sortedUnique (companyFindAll (text.length + 1) false text)

/-- The article data collected by the first pass of `split_articles`
(source lines 225-235). -/
structure Article1 where
  title : Str
  author : Str
  time : Str
  language : Str
  publisher : Str
  ipd : Str
  word_count : Nat
  body_start_idx : Option Nat
  title_line_idx : Nat
deriving DecidableEq, Repr

/-- A placeholder article used only as a `getD` default in statements. -/
def noArticle1 : Article1 :=
  ⟨[], [], [], [], [], [], 0, none, 0⟩

/-- `lines[i]` (always in bounds in the source; total here via a default). -/
def lineAt (lines : List Str) (i : Nat) : Str := lines.getD i []

/-- `not lines[i].strip()`. -/
def lineBlank (lines : List Str) (i : Nat) : Bool := (pyStrip (lineAt lines i)).isEmpty

/-- Worker for `skipBlank`. -/
def skipBlankAux (lines : List Str) : Nat → Nat → Nat
  | 0, p => p
  | fuel + 1, p =>
    if p < lines.length ∧ lineBlank lines p then skipBlankAux lines fuel (p + 1)
    else p

/-- `while p < len(lines) and not lines[p].strip(): p += 1`. -/
def skipBlank (lines : List Str) (p : Nat) : Nat :=
  skipBlankAux lines (lines.length + 1) p

/-- Worker for `skipNonblank`. -/
def skipNonblankAux (lines : List Str) : Nat → Nat → Nat
  | 0, p => p
  | fuel + 1, p =>
    if p < lines.length ∧ ¬lineBlank lines p then skipNonblankAux lines fuel (p + 1)
    else p

/-- `while s < len(lines) and lines[s].strip(): s += 1`. -/
def skipNonblank (lines : List Str) (p : Nat) : Nat :=
  skipNonblankAux lines (lines.length + 1) p

/-- `j = wc_i - 1; while j >= 0 and not lines[j].strip(): j -= 1`:
the nearest non-blank line strictly above `k`, if any
(source lines 169-173). -/
def prevNonblank (lines : List Str) : Nat → Option Nat
  | 0 => none
  | j + 1 => if lineBlank lines j then prevNonblank lines j else some j

/-- `int(s)` on the comma-stripped capture: all-digit and non-empty, else
`ValueError`.  (The capture is made of ASCII digits and commas, so the
general `int` literal syntax is not needed.) -/
def pyInt (ds : Str) : Except PErr Nat :=
  if !ds.isEmpty && ds.all Char.isDigit then .ok (natOfDigits ds) else .error .intValue

/-- The IPD-code acceptance test `re.fullmatch(r"[A-Z0-9]{2,10}", s)`
(source line 202). -/
def isIpdCode (s : Str) : Bool :=
  decide (2 ≤ s.length ∧ s.length ≤ 10) &&
  s.all (fun c => c.isUpper || c.isDigit)

/-- The IPD step (source lines 199-204): skip blanks, test the candidate,
and advance the cursor past it only on acceptance.  Returns
`(ipd, new cursor)`. -/
def ipdStep (lines : List Str) (p : Nat) : Str × Nat :=
  if isIpdCode (if skipBlank lines p < lines.length
      then pyStrip (lineAt lines (skipBlank lines p)) else [])
  then ((if skipBlank lines p < lines.length
      then pyStrip (lineAt lines (skipBlank lines p)) else []),
    skipBlank lines p + 1)
  else ([], skipBlank lines p)

/-- The language scan (source lines 207-215): up to `fuel` (25) lines from
`q`; stops at the end of the document or at the first line with a detected
language.  Returns `(language, final q)`. -/
def langScan (lines : List Str) : Nat → Nat → Str × Nat
  | 0, q => ([], q)
  | fuel + 1, q =>
    if lines.length ≤ q then ([], q)
    else
      let lg := detect_language (lineAt lines q)
      if lg.isEmpty then langScan lines fuel (q + 1) else (lg, q)

/-- The publisher-line cursor: the next non-blank line after the date line
(itself the next non-blank line after the anchor), source lines 192-194. -/
def pubLineIdx (lines : List Str) (wcI : Nat) : Nat :=
  skipBlank lines (skipBlank lines (wcI + 1) + 1)

/-- The IPD step applied at the line after the publisher line
(source lines 196-204). -/
def ipdState (lines : List Str) (wcI : Nat) : Str × Nat :=
  ipdStep lines (pubLineIdx lines wcI + 1)

/-- The language scan started at the cursor the IPD step left
(source lines 206-215). -/
def langState (lines : List Str) (wcI : Nat) : Str × Nat :=
  langScan lines 25 (ipdState lines wcI).2

/-- The body-start cursor: skip the rest of the non-blank run after the
language scan, then the following blank run (source lines 217-223). -/
def bodyStartScan (lines : List Str) (wcI : Nat) : Nat :=
  skipBlank lines (skipNonblank lines (langState lines wcI).2)

/-- The joined author lines strictly between the title line and the anchor
line (source lines 184-186). -/
def authorJoin (lines : List Str) (j wcI : Nat) : Str :=
  if (((List.range' (j + 1) (wcI - (j + 1))).map
        (fun k => pyStrip (lineAt lines k))).filter (fun l => !l.isEmpty)).isEmpty
  then []
  else List.intercalate (gs " | ")
    (((List.range' (j + 1) (wcI - (j + 1))).map
        (fun k => pyStrip (lineAt lines k))).filter (fun l => !l.isEmpty))

/-- The `Article1` record built by a successful iteration of the anchor loop
(source lines 184-235), as a function of the data the iteration branches on:
the anchor index `wcI`, the title index `j`, the parsed date `dt` and the
parsed word count `wc`. -/
def mkArticle1 (lines : List Str) (wcI j : Nat) (dt : PyDateTime) (wc : Nat) : Article1 :=
  { title := pyStrip (lineAt lines j),
    author := authorJoin lines j wcI,
    time := isoFormat dt,
    language := (langState lines wcI).1,
    publisher :=
      if pubLineIdx lines wcI < lines.length
      then pyStrip (lineAt lines (pubLineIdx lines wcI)) else [],
    ipd := (ipdState lines wcI).1,
    word_count := wc,
    body_start_idx :=
      if bodyStartScan lines wcI < lines.length
      then some (bodyStartScan lines wcI) else none,
    title_line_idx := j }

/-- One iteration of the anchor loop of `split_articles`
(source lines 167-235): `.ok none` when the anchor is skipped by
`continue`, `.error` when the iteration raises. -/
def processAnchor (lines : List Str) (wcI : Nat) : Except PErr (Option Article1) :=
  match prevNonblank lines wcI with
  | none => .ok none
  | some j =>
    if skipBlank lines (wcI + 1) < lines.length then
      match parse_factiva_date (lineAt lines (skipBlank lines (wcI + 1))) with
      | .error e => .error e
      | .ok none => .ok none
      | .ok (some dt) =>
        match wordcount_capture (lineAt lines wcI) with
        | none => .error .reGroup
        | some grp =>
          match pyInt (grp.filter (fun c => c != ',')) with
          | .error e => .error e
          | .ok wc => .ok (some (mkArticle1 lines wcI j dt wc))
    else .ok none

/-- `idxs = [i for i, l in enumerate(lines) if WORDCOUNT_RE.search(l)]`
(source line 164). -/
def anchorIdxs (lines : List Str) : List Nat :=
  (List.range lines.length).filter (fun i => (wordcount_capture (lineAt lines i)).isSome)

/-- The first pass of `split_articles`: process each anchor in order,
collecting the accepted articles; an exception aborts the whole pass. -/
def pass1 (lines : List Str) : List Nat → Except PErr (List Article1)
  | [] => .ok []
  | i :: rest =>
    match processAnchor lines i with
    | .error e => .error e
    | .ok none => pass1 lines rest
    | .ok (some a) =>
      match pass1 lines rest with
      | .error e => .error e
      | .ok tail => .ok (a :: tail)

/-- A fully attached article (after the second pass, source lines 238-259). -/
structure Article where
  title : Str
  author : Str
  time : Str
  language : Str
  publisher : Str
  ipd : Str
  word_count : Nat
  body_start_idx : Option Nat
  title_line_idx : Nat
  keywords : Str
  file_no : Str
  body : Str
deriving DecidableEq, Repr

/-- A placeholder article used only as a `getD` default in statements. -/
def noArticle : Article :=
  ⟨[], [], [], [], [], [], 0, none, 0, [], [], []⟩

/-- `lines[a:b]`. -/
def sliceLines (lines : List Str) (a b : Nat) : List Str := (lines.take b).drop a

/-- The second pass for one article (source lines 238-259): slice the body
up to `endIdx`, sanitize it, and extract keywords, file id and the author
fallback. -/
def attachOne (lines : List Str) (endIdx : Nat) (a : Article1) : Article :=
  let bodyText :=
    match a.body_start_idx with
    | some st => pyStrip (joinNL (sliceLines lines st endIdx))
    | none => []
  let body := body_sanitize bodyText
  let keywords :=
    match keywordsSearch (body.length + 1) body with
    | some cap => rstripDots (pyStrip cap)
    | none => []
  let file_no := extract_file_id body
  let author :=
    if a.author.isEmpty then
      match byAuthorSearch (body.length + 1) body with
      | some cap => pyStrip cap
      | none => []
    else a.author
  { title := a.title, author := author, time := a.time,
    language := a.language, publisher := a.publisher, ipd := a.ipd,
    word_count := a.word_count, body_start_idx := a.body_start_idx,
    title_line_idx := a.title_line_idx,
    keywords := keywords, file_no := file_no, body := body }

/-- The second pass: each article's body ends at the next article's title
line index, the last article's at the end of the document
(source lines 239-240). -/
def attachAll (lines : List Str) : List Article1 → List Article
  | [] => []
  | a :: rest =>
    attachOne lines
      (match rest with
       | [] => lines.length
       | b :: _ => b.title_line_idx) a :: attachAll lines rest

/-- `split_articles` (source lines 162-261); the line list
`[ln.rstrip() for ln in text.splitlines()]` appears spelled out. -/
def split_articles (text : Str) : Except PErr (List Article) :=
  match pass1 ((splitlines text).map rstrip)
      (anchorIdxs ((splitlines text).map rstrip)) with
  | .error e => .error e
  | .ok arts1 => .ok (attachAll ((splitlines text).map rstrip) arts1)

/-- One output row (source lines 286-300); field names follow the CSV
column meanings: 标题/作者/时间/语言/正文/IPD/关联话题/关联地区/发行公司/
文件号/关联公司/关联行业/文章字数. -/
structure Row where
  title : Str
  author : Str
  time : Str
  language : Str
  body : Str
  ipd : Str
  topics : Str
  regions : Str
  publisher : Str
  file_no : Str
  companies : Str
  industries : Str
  word_count : Nat
deriving DecidableEq, Repr

/-- `"; ".join(l)`. -/
def joinSemi (ls : List Str) : Str := List.intercalate (gs "; ") ls

/-- Build one row from an attached article (source lines 278-300). -/
def mkRow (a : Article) : Row :=
  let title := clean_title a.title
  let tri := split_keywords a.keywords
  let sample := title ++ '\n' :: joinNL ((splitlines a.body).take 30)
  let companies := extract_companies sample
  { title := title, author := a.author, time := a.time,
    language := a.language, body := a.body, ipd := a.ipd,
    topics := joinSemi tri.1, regions := joinSemi tri.2.1,
    publisher := a.publisher, file_no := a.file_no,
    companies := joinSemi companies, industries := joinSemi tri.2.2,
    word_count := a.word_count }

/-- The format banner searched for in `rtf_factiva_to_rows`
(source line 268). -/
def bannerStr : Str := gs "Factiva RTF Display Format"

/-- `txt.find(pat)`: index of the first occurrence, if any. -/
def findSubIdx : Nat → Nat → Str → Str → Option Nat
  | 0, _, _, _ => none
  | fuel + 1, acc, pat, s =>
    if pat.isPrefixOf s then some acc
    else
      match s with
      | [] => none
      | _ :: rest => findSubIdx fuel (acc + 1) pat rest

/-- `txt[start_idx:]` when the banner is found, `txt` otherwise
(source lines 268-270; `str.find` returns -1 when absent). -/
def bannerCut (txt : Str) : Str :=
  match findSubIdx (txt.length + 1) 0 bannerStr txt with
  | some i => txt.drop i
  | none => txt

/-- `rtf_factiva_to_rows` (source lines 263-302), as a function of the raw
file text (reading the file is the I/O boundary). -/
def rtf_factiva_to_rows (raw : Str) : Except PErr (List Row) :=
  (split_articles (preprocess (clean_factiva_text
    (bannerCut (rtf_to_text raw))))).map (List.map mkRow)

/-! ### Helper definitions used by the statements below -/

/-- The kept form of one body line that precedes the first corrupted line in
`body_sanitize`: blank lines are kept as empty lines, other lines are kept
right-stripped. -/
def bodyKeep (l : Str) : Str := if (pyStrip l).isEmpty then [] else rstrip l

/-- `", ".join(ts)`: rejoin tokens into a comma-separated string. -/
def joinComma : List Str → Str
  | [] => []
  | [t] => t
  | t :: t2 :: ts => t ++ ',' :: ' ' :: joinComma (t2 :: ts)

/-- The end index of article `i`'s body slice: the next article's title-line
index, or the document length for the last article (source line 240). -/
def endIdxAt (arts1 : List Article1) (linesLen i : Nat) : Nat :=
  if i + 1 < arts1.length then (arts1.getD (i + 1) noArticle1).title_line_idx
  else linesLen

/-- The stripped IPD candidate line: the next non-blank line at or after
`p`, or the empty string past end-of-document (source lines 199-201). -/
def ipdCand (lines : List Str) (p : Nat) : Str :=
  if skipBlank lines p < lines.length then pyStrip (lineAt lines (skipBlank lines p))
  else []

/-- Unwrap an `Except`, with a default for the error case. -/
def okOr {ε α : Type} (x : Except ε α) (d : α) : α :=
  match x with
  | .ok a => a
  | .error _ => d

/-- A placeholder row used only as a `getD` default in statements. -/
def noRow : Row :=
  ⟨[], [], [], [], [], [], [], [], [], [], [], [], 0⟩

/-! ### Concrete input documents used by counterexamples and witnesses -/

/-- A document whose single title line is a bare toc-reference token:
`split_articles` accepts it (the line is non-blank) but `clean_title`
strips it to the empty string. -/
def docTocTitle : Str := gs "toc1\n123字\n2024年3月5日 09:30"

/-- A well-formed two-article document. -/
def docTwo : Str :=
  gs "Title One\n100字\n2024年3月5日 09:30\nPubOne\n英文\n\nBody one line.\nTitle Two\n200字\n2024年6月7日\nPubTwo\n英文\n\nBody two."

/-- A document whose anchor line captures only a comma, with a title above
and a parseable date below: `int("")` raises. -/
def docCommaAnchor : Str := gs "T\n,字\n2024年3月5日"

/-- A document whose date line matches the tolerant date pattern with an
out-of-range month and day: `datetime(2024, 13, 32)` raises. -/
def docBadDate : Str := gs "T\n12字\n2024年13月32日"

/-- A single-article document that ends right after the date line, so the
publisher, IPD and language steps all run past end-of-document. -/
def docEod : Str := gs "OnlyTitle\n42字\n2024年3月5日"

/-- A body whose second line is 90 hex-like characters (stripped length 90
> 80, hex ratio 1 > 0.8). -/
def bodyCorrupt : Str := gs "keep me\n" ++ List.replicate 90 'a' ++ gs "\nafter one\nafter two"

/-- The spec's company-extraction sample. -/
def companySampleA : Str := gs "Acme Robotics Inc. and Globex Corp. announced..."

/-- The same sample with a suffix that ends in a word character. -/
def companySampleB : Str := gs "Acme Robotics Inc. and Globex Group announced..."

/-! ### Basic lemmas about the scanning helpers -/

theorem prevNonblank_spec (lines : List Str) :
    ∀ k j, prevNonblank lines k = some j → j < k ∧ lineBlank lines j = false := by
  intro k
  induction k with
  | zero => intro j h; simp [prevNonblank] at h
  | succ m ih =>
    intro j h
    by_cases hb : lineBlank lines m = true
    · have h' : prevNonblank lines m = some j := by
        simpa [prevNonblank, hb] using h
      obtain ⟨h1, h2⟩ := ih j h'
      exact ⟨Nat.lt_succ_of_lt h1, h2⟩
    · have hb' : lineBlank lines m = false := by
        cases hx : lineBlank lines m
        · rfl
        · exact absurd hx hb
      have h' : j = m := by
        have := h
        simp [prevNonblank, hb'] at this
        omega
      subst h'
      exact ⟨Nat.lt_succ_self j, hb'⟩

theorem le_skipBlankAux (lines : List Str) :
    ∀ fuel p, p ≤ skipBlankAux lines fuel p := by
  intro fuel
  induction fuel with
  | zero => intro p; simp [skipBlankAux]
  | succ f ih =>
    intro p
    by_cases h : p < lines.length ∧ lineBlank lines p = true
    · calc p ≤ p + 1 := Nat.le_succ p
        _ ≤ skipBlankAux lines f (p + 1) := ih (p + 1)
        _ = skipBlankAux lines (f + 1) p := by simp [skipBlankAux, h]
    · simp [skipBlankAux, h]

theorem le_skipBlank (lines : List Str) (p : Nat) : p ≤ skipBlank lines p :=
  le_skipBlankAux lines (lines.length + 1) p

theorem le_skipNonblankAux (lines : List Str) :
    ∀ fuel p, p ≤ skipNonblankAux lines fuel p := by
  intro fuel
  induction fuel with
  | zero => intro p; simp [skipNonblankAux]
  | succ f ih =>
    intro p
    unfold skipNonblankAux
    split
    · calc p ≤ p + 1 := Nat.le_succ p
        _ ≤ skipNonblankAux lines f (p + 1) := ih (p + 1)
    · exact Nat.le_refl p

theorem le_skipNonblank (lines : List Str) (p : Nat) : p ≤ skipNonblank lines p :=
  le_skipNonblankAux lines (lines.length + 1) p

theorem langScan_le (lines : List Str) :
    ∀ fuel q, q ≤ (langScan lines fuel q).2 := by
  intro fuel
  induction fuel with
  | zero => intro q; simp [langScan]
  | succ f ih =>
    intro q
    by_cases hq : lines.length ≤ q
    · simp [langScan, hq]
    · by_cases he : (detect_language (lineAt lines q)).isEmpty = true
      · calc q ≤ q + 1 := Nat.le_succ q
          _ ≤ (langScan lines f (q + 1)).2 := ih (q + 1)
          _ = (langScan lines (f + 1) q).2 := by simp [langScan, hq, he]
      · simp [langScan, hq, he]

theorem ipdStep_le (lines : List Str) (p : Nat) : p ≤ (ipdStep lines p).2 := by
  unfold ipdStep
  split <;> split <;>
    first
      | exact Nat.le_succ_of_le (le_skipBlank lines p)
      | exact le_skipBlank lines p

theorem skipBlankAux_of_ge (lines : List Str) (fuel p : Nat)
    (h : lines.length ≤ p) : skipBlankAux lines fuel p = p := by
  cases fuel with
  | zero => rfl
  | succ f =>
    have : ¬(p < lines.length ∧ lineBlank lines p = true) := by
      intro hc
      exact absurd hc.1 (Nat.not_lt.mpr h)
    simp [skipBlankAux, this]

theorem skipNonblankAux_of_ge (lines : List Str) (fuel p : Nat)
    (h : lines.length ≤ p) : skipNonblankAux lines fuel p = p := by
  cases fuel with
  | zero => rfl
  | succ f =>
    unfold skipNonblankAux
    split
    · next hc => exact absurd hc.1 (Nat.not_lt.mpr h)
    · rfl

theorem langScan_of_ge (lines : List Str) (fuel q : Nat)
    (h : lines.length ≤ q) : langScan lines fuel q = ([], q) := by
  cases fuel with
  | zero => rfl
  | succ f => simp [langScan, h]

theorem skipBlankAux_allBlank (lines : List Str) :
    ∀ fuel p, lines.length ≤ p + fuel →
      (∀ k, p ≤ k → k < lines.length → lineBlank lines k = true) →
      lines.length ≤ skipBlankAux lines fuel p := by
  intro fuel
  induction fuel with
  | zero =>
    intro p h _
    simpa [skipBlankAux] using h
  | succ f ih =>
    intro p h hall
    by_cases hp : p < lines.length
    · have hb : lineBlank lines p = true := hall p (Nat.le_refl p) hp
      have : skipBlankAux lines (f + 1) p = skipBlankAux lines f (p + 1) := by
        simp [skipBlankAux, hp, hb]
      rw [this]
      exact ih (p + 1) (by omega) (fun k hk1 hk2 => hall k (by omega) hk2)
    · have hge : lines.length ≤ p := Nat.not_lt.mp hp
      calc lines.length ≤ p := hge
        _ ≤ skipBlankAux lines (f + 1) p := le_skipBlankAux lines (f + 1) p

theorem skipBlank_allBlank (lines : List Str) (p : Nat)
    (hall : ∀ k, p ≤ k → k < lines.length → lineBlank lines k = true) :
    lines.length ≤ skipBlank lines p :=
  skipBlankAux_allBlank lines (lines.length + 1) p (by omega) hall

/-! ### Characterization of one anchor iteration -/

theorem parse_date_some_valid (l : Str) (dt : PyDateTime)
    (h : parse_factiva_date l = .ok (some dt)) : dtValid dt = true := by
  unfold parse_factiva_date at h
  split at h
  · exact absurd h (by simp)
  · next dt0 heq =>
    by_cases hv : dtValid dt0 = true
    · have : dt0 = dt := by
        simp [hv] at h
        exact h
      rw [← this]
      exact hv
    · simp [hv] at h

theorem processAnchor_some_elim (lines : List Str) (wcI : Nat) (a : Article1)
    (h : processAnchor lines wcI = .ok (some a)) :
    ∃ j dt grp wc,
      prevNonblank lines wcI = some j ∧
      skipBlank lines (wcI + 1) < lines.length ∧
      parse_factiva_date (lineAt lines (skipBlank lines (wcI + 1))) = .ok (some dt) ∧
      wordcount_capture (lineAt lines wcI) = some grp ∧
      pyInt (grp.filter (fun c => c != ',')) = .ok wc ∧
      a = mkArticle1 lines wcI j dt wc := by
  unfold processAnchor at h
  split at h
  · exact absurd h (by simp)
  · next j hj =>
    split at h
    · next hp =>
      split at h
      · exact absurd h (by simp)
      · exact absurd h (by simp)
      · next dt hdt =>
        split at h
        · exact absurd h (by simp)
        · next grp hgrp =>
          split at h
          · exact absurd h (by simp)
          · next wc hwc =>
            refine ⟨j, dt, grp, wc, hj, hp, hdt, hgrp, hwc, ?_⟩
            have := h
            simp only [Except.ok.injEq, Option.some.injEq] at this
            exact this.symm
    · exact absurd h (by simp)

theorem processAnchor_some_intro (lines : List Str) (wcI j : Nat)
    (dt : PyDateTime) (grp : Str) (wc : Nat)
    (hj : prevNonblank lines wcI = some j)
    (hp : skipBlank lines (wcI + 1) < lines.length)
    (hdt : parse_factiva_date (lineAt lines (skipBlank lines (wcI + 1))) = .ok (some dt))
    (hgrp : wordcount_capture (lineAt lines wcI) = some grp)
    (hwc : pyInt (grp.filter (fun c => c != ',')) = .ok wc) :
    processAnchor lines wcI = .ok (some (mkArticle1 lines wcI j dt wc)) := by
  unfold processAnchor
  simp [hj, hp, hdt, hgrp, hwc]

theorem mkArticle1_time (lines : List Str) (wcI j : Nat) (dt : PyDateTime) (wc : Nat) :
    (mkArticle1 lines wcI j dt wc).time = isoFormat dt := rfl

theorem mkArticle1_title (lines : List Str) (wcI j : Nat) (dt : PyDateTime) (wc : Nat) :
    (mkArticle1 lines wcI j dt wc).title = pyStrip (lineAt lines j) := rfl

theorem mkArticle1_title_idx (lines : List Str) (wcI j : Nat) (dt : PyDateTime) (wc : Nat) :
    (mkArticle1 lines wcI j dt wc).title_line_idx = j := rfl

theorem bodyStartScan_gt (lines : List Str) (wcI : Nat) :
    wcI < bodyStartScan lines wcI := by
  have c1 : wcI + 1 ≤ skipBlank lines (wcI + 1) := le_skipBlank lines (wcI + 1)
  have c2 : skipBlank lines (wcI + 1) + 1 ≤ pubLineIdx lines wcI :=
    le_skipBlank lines _
  have c3 : pubLineIdx lines wcI + 1 ≤ (ipdState lines wcI).2 :=
    ipdStep_le lines _
  have c4 : (ipdState lines wcI).2 ≤ (langState lines wcI).2 :=
    langScan_le lines 25 _
  have c5 : (langState lines wcI).2 ≤
      skipNonblank lines (langState lines wcI).2 :=
    le_skipNonblank lines _
  have c6 : skipNonblank lines (langState lines wcI).2 ≤ bodyStartScan lines wcI :=
    le_skipBlank lines _
  omega

theorem mkArticle1_body_start_gt (lines : List Str) (wcI j : Nat)
    (dt : PyDateTime) (wc : Nat) (st : Nat)
    (h : (mkArticle1 lines wcI j dt wc).body_start_idx = some st) : wcI < st := by
  unfold mkArticle1 at h
  simp only at h
  split at h
  · next hlt =>
    have hst : st = bodyStartScan lines wcI := by
      simp only [Option.some.injEq] at h
      omega
    have := bodyStartScan_gt lines wcI
    omega
  · exact absurd h (by simp)

/-! ### The two passes of `split_articles` -/

theorem pass1_mem (lines : List Str) :
    ∀ idxs arts1, pass1 lines idxs = .ok arts1 →
      ∀ a ∈ arts1, ∃ i ∈ idxs, processAnchor lines i = .ok (some a) := by
  intro idxs
  induction idxs with
  | nil =>
    intro arts1 h a ha
    have : arts1 = [] := by
      simpa [pass1] using h.symm
    subst this
    simp at ha
  | cons i rest ih =>
    intro arts1 h a ha
    unfold pass1 at h
    split at h
    · exact absurd h (by simp)
    · next hnone =>
      obtain ⟨i0, hi0, hp⟩ := ih arts1 h a ha
      exact ⟨i0, List.mem_cons_of_mem i hi0, hp⟩
    · next a0 hsome =>
      split at h
      · exact absurd h (by simp)
      · next tail htail =>
        have : arts1 = a0 :: tail := by
          simpa using h.symm
        subst this
        rcases List.mem_cons.mp ha with heq | hmem
        · subst heq
          exact ⟨i, List.mem_cons_self i rest, hsome⟩
        · obtain ⟨i0, hi0, hp⟩ := ih tail htail a hmem
          exact ⟨i0, List.mem_cons_of_mem i hi0, hp⟩

theorem attachAll_cons (lines : List Str) (a : Article1) (rest : List Article1) :
    attachAll lines (a :: rest) =
      attachOne lines
        (match rest with
         | [] => lines.length
         | b :: _ => b.title_line_idx) a :: attachAll lines rest := rfl

theorem attachAll_length (lines : List Str) :
    ∀ l, (attachAll lines l).length = l.length := by
  intro l
  induction l with
  | nil => rfl
  | cons a rest ih => simp [attachAll, ih]

theorem attachAll_getD (lines : List Str) :
    ∀ l i, i < l.length →
      (attachAll lines l).getD i noArticle =
        attachOne lines (endIdxAt l lines.length i) (l.getD i noArticle1) := by
  intro l
  induction l with
  | nil => intro i hi; simp at hi
  | cons a rest ih =>
    intro i hi
    cases i with
    | zero =>
      cases rest with
      | nil => simp [attachAll, endIdxAt]
      | cons b rest2 => simp [attachAll, endIdxAt]
    | succ k =>
      have hk : k < rest.length := by simpa using hi
      have hend : endIdxAt (a :: rest) lines.length (k + 1) =
          endIdxAt rest lines.length k := by
        simp only [endIdxAt, List.length_cons]
        by_cases hlt : k + 1 < rest.length
        · rw [if_pos (by omega), if_pos hlt]
          simp [List.getD_cons_succ]
        · rw [if_neg (by omega), if_neg hlt]
      calc (attachAll lines (a :: rest)).getD (k + 1) noArticle
          = (attachAll lines rest).getD k noArticle := by
            simp [attachAll, List.getD_cons_succ]
        _ = attachOne lines (endIdxAt rest lines.length k) (rest.getD k noArticle1) :=
            ih k hk
        _ = attachOne lines (endIdxAt (a :: rest) lines.length (k + 1))
              ((a :: rest).getD (k + 1) noArticle1) := by
            rw [hend, List.getD_cons_succ]

theorem attachAll_mem (lines : List Str) :
    ∀ l a, a ∈ attachAll lines l →
      ∃ a1 ∈ l, ∃ e, a = attachOne lines e a1 := by
  intro l
  induction l with
  | nil => intro a ha; simp [attachAll] at ha
  | cons a0 rest ih =>
    intro a ha
    rw [attachAll_cons] at ha
    rcases List.mem_cons.mp ha with heq | hmem
    · exact ⟨a0, List.mem_cons_self a0 rest, _, heq⟩
    · obtain ⟨a1, h1, e, he⟩ := ih a hmem
      exact ⟨a1, List.mem_cons_of_mem a0 h1, e, he⟩

theorem attachOne_time (lines : List Str) (e : Nat) (a : Article1) :
    (attachOne lines e a).time = a.time := rfl

theorem mkRow_time (a : Article) : (mkRow a).time = a.time := rfl

theorem split_articles_elim (text : Str) (arts : List Article)
    (h : split_articles text = .ok arts) :
    ∃ arts1, pass1 ((splitlines text).map rstrip)
        (anchorIdxs ((splitlines text).map rstrip)) = .ok arts1 ∧
      arts = attachAll ((splitlines text).map rstrip) arts1 := by
  unfold split_articles at h
  split at h
  · exact absurd h (by simp)
  · next arts1 heq =>
    refine ⟨arts1, heq, ?_⟩
    simpa using h.symm

theorem rows_elim (raw : Str) (rs : List Row)
    (h : rtf_factiva_to_rows raw = .ok rs) :
    ∃ arts, split_articles (preprocess (clean_factiva_text
        (bannerCut (rtf_to_text raw)))) = .ok arts ∧
      rs = arts.map mkRow := by
  unfold rtf_factiva_to_rows at h
  cases hs : split_articles (preprocess (clean_factiva_text
      (bannerCut (rtf_to_text raw)))) with
  | error e => rw [hs] at h; exact absurd h (by simp [Except.map])
  | ok arts =>
    rw [hs] at h
    refine ⟨arts, rfl, ?_⟩
    have h2 : (Except.ok (arts.map mkRow) : Except PErr (List Row)) = Except.ok rs := by
      simpa [Except.map] using h
    simpa using h2.symm

/-! ### The word-count capture and `int` parse -/

theorem wordcount_capture_spec (l grp : Str) (h : wordcount_capture l = some grp) :
    grp ≠ [] ∧ ∀ c ∈ grp, c.isDigit ∨ c = ',' := by
  unfold wordcount_capture at h
  split at h
  · exact absurd h (by simp)
  · next hne =>
    split at h
    · next c rest heq =>
      split at h
      · have hgrp : grp = (l.dropWhile pyIsSpace).takeWhile
            (fun c => c.isDigit || c = ',') := by
          simpa using h.symm
        subst hgrp
        refine ⟨by simpa using hne, ?_⟩
        intro c0 hc0
        have := List.mem_takeWhile_imp hc0
        simpa [Bool.or_eq_true, decide_eq_true_eq] using this
      · exact absurd h (by simp)
    · exact absurd h (by simp)

theorem digit_ne_comma (c : Char) (h : c.isDigit = true) : (c != ',') = true := by
  have : ¬c = ',' := by
    intro heq
    subst heq
    simp [Char.isDigit] at h
  simpa using this

theorem pyInt_ok_of_digit (grp : Str)
    (hchars : ∀ c ∈ grp, c.isDigit ∨ c = ',')
    (hdig : ∃ c ∈ grp, c.isDigit = true) :
    pyInt (grp.filter (fun c => c != ',')) =
      .ok (natOfDigits (grp.filter (fun c => c != ','))) := by
  unfold pyInt
  rw [if_pos]
  obtain ⟨c0, hc0mem, hc0⟩ := hdig
  have hmem : c0 ∈ grp.filter (fun c => c != ',') :=
    List.mem_filter.mpr ⟨hc0mem, digit_ne_comma c0 hc0⟩
  have hne : grp.filter (fun c => c != ',') ≠ [] := List.ne_nil_of_mem hmem
  have hall : (grp.filter (fun c => c != ',')).all Char.isDigit = true := by
    rw [List.all_eq_true]
    intro c hc
    obtain ⟨hcg, hcne⟩ := List.mem_filter.mp hc
    rcases hchars c hcg with hd | hcomma
    · exact hd
    · subst hcomma
      simp at hcne
  rw [Bool.and_eq_true, hall]
  refine ⟨?_, rfl⟩
  simpa using hne

/-! ### Claim C1 -/

/-- **C1** (counterexample): the document `docTocTitle` has the non-blank
title line `toc1`, which `split_articles` accepts, but `clean_title` strips
the toc-reference token away, so `rtf_factiva_to_rows` emits exactly one
record whose title field is the empty string — refuting "every record
emitted by the pipeline has a non-empty title field". -/
theorem c1_counterexample :
    Except.map (List.map Row.title) (rtf_factiva_to_rows docTocTitle) =
      Except.ok [[]] := by
  rfl

/-- **C1** (amended): every record emitted by `rtf_factiva_to_rows` carries a
timestamp in ISO form obtained from a successfully parsed, in-range date,
and an anchor is promoted to a record only if a parseable timestamp is found
on the next non-blank line after it, in which case the record's pre-cleanup
title (the nearest non-blank line above the anchor) is non-empty.  The
emitted title field itself, however, can be empty, because `clean_title` may
strip a title consisting only of toc-reference tokens or non-word characters
to the empty string. -/
theorem c1_record_fields :
    (∀ raw rs, rtf_factiva_to_rows raw = .ok rs → ∀ r ∈ rs,
       ∃ dt, dtValid dt = true ∧ r.time = isoFormat dt) ∧
    (∀ lines wcI a, processAnchor lines wcI = .ok (some a) →
       a.title ≠ [] ∧
       skipBlank lines (wcI + 1) < lines.length ∧
       ∃ dt, parse_factiva_date (lineAt lines (skipBlank lines (wcI + 1))) = .ok (some dt) ∧
         dtValid dt = true ∧ a.time = isoFormat dt) := by
  have anchor : ∀ lines wcI a, processAnchor lines wcI = .ok (some a) →
      a.title ≠ [] ∧
      skipBlank lines (wcI + 1) < lines.length ∧
      ∃ dt, parse_factiva_date (lineAt lines (skipBlank lines (wcI + 1))) = .ok (some dt) ∧
        dtValid dt = true ∧ a.time = isoFormat dt := by
    intro lines wcI a h
    obtain ⟨j, dt, grp, wc, hj, hp, hdt, hgrp, hwc, ha⟩ :=
      processAnchor_some_elim lines wcI a h
    obtain ⟨hjlt, hjnb⟩ := prevNonblank_spec lines wcI j hj
    refine ⟨?_, hp, dt, hdt, parse_date_some_valid _ dt hdt, ?_⟩
    · rw [ha, mkArticle1_title]
      intro hnil
      rw [lineBlank, hnil] at hjnb
      simp at hjnb
    · rw [ha, mkArticle1_time]
  refine ⟨?_, anchor⟩
  intro raw rs hrs r hr
  obtain ⟨arts, harts, hmap⟩ := rows_elim raw rs hrs
  subst hmap
  obtain ⟨a, ha, har⟩ := List.mem_map.mp hr
  obtain ⟨arts1, hpass, hatt⟩ := split_articles_elim _ arts harts
  subst hatt
  obtain ⟨a1, ha1, e, hae⟩ := attachAll_mem _ arts1 a ha
  obtain ⟨i, _, hpa⟩ := pass1_mem _ _ arts1 hpass a1 ha1
  obtain ⟨_, _, dt, _, hv, htime⟩ := anchor _ i a1 hpa
  refine ⟨dt, hv, ?_⟩
  rw [← har, mkRow_time, hae, attachOne_time, htime]

/-- **C1** (witness for the amended theorem, at the two-article document). -/
theorem c1_record_fields_witness :
    ∃ dt, dtValid dt = true ∧
      ((okOr (rtf_factiva_to_rows docTwo) []).getD 0 noRow).time = isoFormat dt :=
  c1_record_fields.1 docTwo (okOr (rtf_factiva_to_rows docTwo) []) (by rfl)
    ((okOr (rtf_factiva_to_rows docTwo) []).getD 0 noRow) (by decide)

/-! ### Claim C2 -/

theorem attachOne_body (lines : List Str) (e : Nat) (a : Article1) :
    (attachOne lines e a).body =
      body_sanitize (match a.body_start_idx with
        | some st => pyStrip (joinNL (sliceLines lines st e))
        | none => []) := rfl

theorem pass1_article_inv (lines : List Str) (idxs : List Nat)
    (arts1 : List Article1) (hp : pass1 lines idxs = .ok arts1) :
    ∀ a1 ∈ arts1, ∀ st, a1.body_start_idx = some st → a1.title_line_idx < st := by
  intro a1 ha1 st hst
  obtain ⟨i, _, hpa⟩ := pass1_mem lines idxs arts1 hp a1 ha1
  obtain ⟨j, dt, grp, wc, hj, _, _, _, _, ha⟩ := processAnchor_some_elim lines i a1 hpa
  have hj2 := (prevNonblank_spec lines i j hj).1
  have hgt : i < st :=
    mkArticle1_body_start_gt lines i j dt wc st (by rw [← ha]; exact hst)
  have hti : a1.title_line_idx = j := by rw [ha, mkArticle1_title_idx]
  omega

/-- **C2**: when `split_articles` succeeds, the attached article list has one
entry per first-pass article; article `i`'s stored body is exactly the
sanitized join of the line slice from its body-start index up to
`endIdxAt arts1 _ i` — which is article `i+1`'s title-line index for
non-final articles and the document length for the last one; the next
article's body start lies strictly beyond that end index, so consecutive
bodies neither overlap nor absorb the next article's title line: no line
index belongs to both slices. -/
theorem c2_body_boundaries :
    ∀ text arts1 arts,
      pass1 ((splitlines text).map rstrip)
        (anchorIdxs ((splitlines text).map rstrip)) = .ok arts1 →
      split_articles text = .ok arts →
      arts.length = arts1.length ∧
      (∀ i, i < arts1.length →
        (arts.getD i noArticle).body =
          body_sanitize (match (arts1.getD i noArticle1).body_start_idx with
            | some st => pyStrip (joinNL (sliceLines ((splitlines text).map rstrip) st
                (endIdxAt arts1 ((splitlines text).map rstrip).length i)))
            | none => [])) ∧
      (∀ i st', i + 1 < arts1.length →
        (arts1.getD (i + 1) noArticle1).body_start_idx = some st' →
        endIdxAt arts1 ((splitlines text).map rstrip).length i < st') ∧
      (∀ i k st st', i + 1 < arts1.length →
        (arts1.getD i noArticle1).body_start_idx = some st →
        (arts1.getD (i + 1) noArticle1).body_start_idx = some st' →
        st ≤ k → k < endIdxAt arts1 ((splitlines text).map rstrip).length i →
        ¬(st' ≤ k ∧
          k < endIdxAt arts1 ((splitlines text).map rstrip).length (i + 1))) := by
  intro text arts1 arts hpass hsplit
  obtain ⟨arts1b, hpass2, hatt⟩ := split_articles_elim text arts hsplit
  have harts1 : arts1b = arts1 := by
    rw [hpass2] at hpass
    simpa using hpass
  rw [harts1] at hpass2 hatt
  subst hatt
  have hnext : ∀ i st', i + 1 < arts1.length →
      (arts1.getD (i + 1) noArticle1).body_start_idx = some st' →
      endIdxAt arts1 ((splitlines text).map rstrip).length i < st' := by
    intro i st' hi hst
    have hmem : arts1.getD (i + 1) noArticle1 ∈ arts1 := by
      rw [List.getD_eq_getElem arts1 noArticle1 hi]
      exact List.getElem_mem hi
    have hlt := pass1_article_inv _ _ arts1 hpass2 _ hmem st' hst
    have hend : endIdxAt arts1 ((splitlines text).map rstrip).length i =
        (arts1.getD (i + 1) noArticle1).title_line_idx := by
      simp [endIdxAt, hi]
    omega
  refine ⟨attachAll_length _ arts1, ?_, hnext, ?_⟩
  · intro i hi
    rw [attachAll_getD _ arts1 i hi, attachOne_body]
  · intro i k st st' hi hst hst' hk1 hk2 hc
    have := hnext i st' hi hst'
    omega

/-- **C2** (witness, at the two-article document `docTwo`): the first
article's body slice is bounded by the second article's title line. -/
theorem c2_body_boundaries_witness :
    (okOr (split_articles docTwo) []).length =
      (okOr (pass1 ((splitlines docTwo).map rstrip)
        (anchorIdxs ((splitlines docTwo).map rstrip))) []).length ∧
    ((okOr (split_articles docTwo) []).getD 0 noArticle).body =
      body_sanitize (match ((okOr (pass1 ((splitlines docTwo).map rstrip)
          (anchorIdxs ((splitlines docTwo).map rstrip))) []).getD 0
            noArticle1).body_start_idx with
        | some st => pyStrip (joinNL (sliceLines ((splitlines docTwo).map rstrip) st
            (endIdxAt (okOr (pass1 ((splitlines docTwo).map rstrip)
              (anchorIdxs ((splitlines docTwo).map rstrip))) [])
              ((splitlines docTwo).map rstrip).length 0)))
        | none => []) := by
  have h := c2_body_boundaries docTwo
    (okOr (pass1 ((splitlines docTwo).map rstrip)
      (anchorIdxs ((splitlines docTwo).map rstrip))) [])
    (okOr (split_articles docTwo) []) (by rfl) (by rfl)
  exact ⟨h.1, h.2.1 0 (by decide)⟩

/-! ### Claim C3 -/

theorem skipBlank_of_ge (lines : List Str) (p : Nat) (h : lines.length ≤ p) :
    skipBlank lines p = p :=
  skipBlankAux_of_ge lines (lines.length + 1) p h

theorem skipNonblank_of_ge (lines : List Str) (p : Nat) (h : lines.length ≤ p) :
    skipNonblank lines p = p :=
  skipNonblankAux_of_ge lines (lines.length + 1) p h

/-- When every line after the date line is blank (or the date line is the
last line), the publisher, IPD, language and body-start steps all run past
end-of-document and produce empty fields. -/
theorem mkArticle1_eod (lines : List Str) (wcI j : Nat) (dt : PyDateTime) (wc : Nat)
    (hall : ∀ k, skipBlank lines (wcI + 1) < k → k < lines.length →
      lineBlank lines k = true) :
    (mkArticle1 lines wcI j dt wc).publisher = [] ∧
    (mkArticle1 lines wcI j dt wc).ipd = [] ∧
    (mkArticle1 lines wcI j dt wc).language = [] ∧
    (mkArticle1 lines wcI j dt wc).body_start_idx = none := by
  have hpub : lines.length ≤ pubLineIdx lines wcI := by
    unfold pubLineIdx
    apply skipBlank_allBlank
    intro k hk1 hk2
    exact hall k (by omega) hk2
  have hipd : ipdState lines wcI = ([], pubLineIdx lines wcI + 1) := by
    unfold ipdState ipdStep
    rw [skipBlank_of_ge lines _ (by omega)]
    rw [if_neg (show ¬(pubLineIdx lines wcI + 1 < lines.length) by omega)]
    simp [isIpdCode]
  have hlang : langState lines wcI = ([], pubLineIdx lines wcI + 1) := by
    unfold langState
    rw [hipd]
    exact langScan_of_ge lines 25 _ (by omega)
  have hbody : bodyStartScan lines wcI = pubLineIdx lines wcI + 1 := by
    unfold bodyStartScan
    rw [hlang]
    rw [skipNonblank_of_ge lines _ (by omega), skipBlank_of_ge lines _ (by omega)]
  refine ⟨?_, ?_, ?_, ?_⟩
  · unfold mkArticle1
    simp only
    rw [if_neg (by omega)]
  · unfold mkArticle1
    simp only
    rw [hipd]
  · unfold mkArticle1
    simp only
    rw [hlang]
  · unfold mkArticle1
    simp only
    rw [hbody, if_neg (by omega)]

/-- **C3** (counterexample): in `docCommaAnchor` the anchor line `,字` has
the non-blank title `T` above it and a parseable date below it, yet no
record is created — `split_articles` raises `ValueError` from `int("")`
because the captured group is a bare comma.  So date adjacency is not the
only thing that can prevent record creation. -/
theorem c3_counterexample :
    split_articles docCommaAnchor = Except.error PErr.intValue ∧
    prevNonblank ((splitlines docCommaAnchor).map rstrip) 1 = some 0 ∧
    (parse_factiva_date (lineAt ((splitlines docCommaAnchor).map rstrip)
      (skipBlank ((splitlines docCommaAnchor).map rstrip) 2))).isOk = true := by
  exact ⟨by rfl, by rfl, by rfl⟩

/-- **C3** (amended): for every anchor with a title above it, a parseable
in-range date on the next non-blank line below it, and a word-count capture
containing at least one digit, a record is created; and when the publisher,
IPD and language sub-steps all run past end-of-document (every line after
the date line is blank), those fields are emitted empty and the body start
is `none`, rather than the article being discarded. -/
theorem c3_degraded_fields :
    ∀ lines wcI j dt grp,
      prevNonblank lines wcI = some j →
      skipBlank lines (wcI + 1) < lines.length →
      parse_factiva_date (lineAt lines (skipBlank lines (wcI + 1))) = .ok (some dt) →
      wordcount_capture (lineAt lines wcI) = some grp →
      (∃ c ∈ grp, c.isDigit = true) →
      processAnchor lines wcI = .ok (some (mkArticle1 lines wcI j dt
          (natOfDigits (grp.filter (fun c => c != ','))))) ∧
      ((∀ k, skipBlank lines (wcI + 1) < k → k < lines.length →
          lineBlank lines k = true) →
        (mkArticle1 lines wcI j dt
            (natOfDigits (grp.filter (fun c => c != ',')))).publisher = [] ∧
        (mkArticle1 lines wcI j dt
            (natOfDigits (grp.filter (fun c => c != ',')))).ipd = [] ∧
        (mkArticle1 lines wcI j dt
            (natOfDigits (grp.filter (fun c => c != ',')))).language = [] ∧
        (mkArticle1 lines wcI j dt
            (natOfDigits (grp.filter (fun c => c != ',')))).body_start_idx = none) := by
  intro lines wcI j dt grp hj hp hdt hgrp hdig
  have hchars := (wordcount_capture_spec (lineAt lines wcI) grp hgrp).2
  have hwc := pyInt_ok_of_digit grp hchars hdig
  refine ⟨?_, ?_⟩
  · exact processAnchor_some_intro lines wcI j dt grp _ hj hp hdt hgrp hwc
  · intro hall
    exact mkArticle1_eod lines wcI j dt _ hall

/-- **C3** (witness, at the document `docEod`, which ends right after its
date line). -/
theorem c3_degraded_fields_witness :
    processAnchor ((splitlines docEod).map rstrip) 1 =
      .ok (some (mkArticle1 ((splitlines docEod).map rstrip) 1 0 ⟨2024, 3, 5, 0, 0⟩
        (natOfDigits ((gs "42").filter (fun c => c != ','))))) ∧
    (mkArticle1 ((splitlines docEod).map rstrip) 1 0 ⟨2024, 3, 5, 0, 0⟩
      (natOfDigits ((gs "42").filter (fun c => c != ',')))).publisher = [] ∧
    (mkArticle1 ((splitlines docEod).map rstrip) 1 0 ⟨2024, 3, 5, 0, 0⟩
      (natOfDigits ((gs "42").filter (fun c => c != ',')))).ipd = [] ∧
    (mkArticle1 ((splitlines docEod).map rstrip) 1 0 ⟨2024, 3, 5, 0, 0⟩
      (natOfDigits ((gs "42").filter (fun c => c != ',')))).language = [] ∧
    (mkArticle1 ((splitlines docEod).map rstrip) 1 0 ⟨2024, 3, 5, 0, 0⟩
      (natOfDigits ((gs "42").filter (fun c => c != ',')))).body_start_idx = none := by
  have h := c3_degraded_fields ((splitlines docEod).map rstrip)
    1 0 ⟨2024, 3, 5, 0, 0⟩ (gs "42") (by rfl) (by decide) (by rfl) (by rfl)
    ⟨'4', by decide, by decide⟩
  refine ⟨h.1, h.2 ?_⟩
  intro k h1 h2
  have hs : skipBlank ((splitlines docEod).map rstrip) (1 + 1) = 2 := by decide
  have hl : ((splitlines docEod).map rstrip).length = 3 := by decide
  rw [hs] at h1
  rw [hl] at h2
  omega

/-! ### Claim C10 -/

/-- **C10** (counterexample): `split_articles` is not total.  On
`docBadDate` the anchor has a title above it and the line below matches the
tolerant date pattern with month 13 and day 32, so
`datetime(2024, 13, 32)` raises `ValueError` and the whole call fails. -/
theorem c10_counterexample :
    split_articles docBadDate = Except.error PErr.dateValue := by
  rfl

/-- **C10** (amended): for every line accepted by the word-count anchor
pattern, the captured group is a non-empty string of digits and commas, and
removing the commas leaves a string that parses as an integer **provided the
group contains at least one digit**; `split_articles` itself can fail: on an
anchor whose capture is all commas (`int("")` raises) and on a matched date
whose fields are out of range (`datetime(...)` raises). -/
theorem c10_wordcount_parse :
    ∀ l grp, wordcount_capture l = some grp →
      grp ≠ [] ∧ (∀ c ∈ grp, c.isDigit ∨ c = ',') ∧
      ((∃ c ∈ grp, c.isDigit = true) →
        pyInt (grp.filter (fun c => c != ',')) =
          .ok (natOfDigits (grp.filter (fun c => c != ',')))) := by
  intro l grp h
  obtain ⟨h1, h2⟩ := wordcount_capture_spec l grp h
  exact ⟨h1, h2, fun hd => pyInt_ok_of_digit grp h2 hd⟩

/-- **C10** (witness, at the anchor line `1,234字`). -/
theorem c10_wordcount_parse_witness :
    pyInt ((gs "1,234").filter (fun c => c != ',')) =
      .ok (natOfDigits ((gs "1,234").filter (fun c => c != ','))) :=
  (c10_wordcount_parse (gs "1,234字") (gs "1,234") (by rfl)).2.2
    ⟨'1', by decide, by decide⟩

/-! ### Claim C4 -/

theorem bodyScan_take :
    ∀ (ls : List Str) (i : Nat), i < ls.length →
      bodyLineBad (pyStrip (ls.getD i [])) = true →
      (∀ j, j < i → bodyLineBad (pyStrip (ls.getD j [])) = false) →
      bodyScan ls = (ls.take i).map bodyKeep := by
  intro ls
  induction ls with
  | nil => intro i hi; simp at hi
  | cons l rest ih =>
    intro i hi hbad hgood
    cases i with
    | zero =>
      simp only [List.getD_cons_zero] at hbad
      have hne : (pyStrip l).isEmpty = false := by
        cases hemp : (pyStrip l).isEmpty
        · rfl
        · exfalso
          have hnil : pyStrip l = [] := by
            simpa using hemp
          rw [hnil] at hbad
          simp [bodyLineBad] at hbad
      simp [bodyScan, hne, hbad]
    | succ k =>
      have h0 := hgood 0 (Nat.succ_pos k)
      simp only [List.getD_cons_zero] at h0
      have hrest : bodyScan rest = (rest.take k).map bodyKeep := by
        apply ih k
        · simpa using hi
        · simpa using hbad
        · intro j hj
          have := hgood (j + 1) (Nat.succ_lt_succ hj)
          simpa using this
      cases hemp : (pyStrip l).isEmpty
      · simp [bodyScan, hemp, h0, hrest, bodyKeep]
      · simp [bodyScan, hemp, hrest, bodyKeep]

/-- **C4**: if line `i` of a body is the first line whose stripped form is
longer than 80 characters with hex-digit fraction above 0.8, then the
`body_sanitize` line scan keeps exactly the lines before `i` (blank lines as
empty lines, others right-stripped) and discards line `i` together with every
line after it, so the sanitized body is built from the first `i` lines only.
By contrast the whole-document noise filter processes lines independently:
a dropped line removes only itself, and the lines around it are still
processed. -/
theorem c4_body_truncation :
    ∀ (body : Str) (i : Nat),
      i < (splitlines body).length →
      bodyLineBad (pyStrip ((splitlines body).getD i [])) = true →
      (∀ j, j < i → bodyLineBad (pyStrip ((splitlines body).getD j [])) = false) →
      bodyScan (splitlines body) = ((splitlines body).take i).map bodyKeep ∧
      body_sanitize body =
        collapseNL (pyStrip (joinNL (((splitlines body).take i).map bodyKeep))) ∧
      (∀ (xs ys : List Str) (l : Str), cleanLineKeep l = none →
        (xs ++ l :: ys).filterMap cleanLineKeep =
          xs.filterMap cleanLineKeep ++ ys.filterMap cleanLineKeep) := by
  intro body i hi hbad hgood
  have hscan := bodyScan_take (splitlines body) i hi hbad hgood
  refine ⟨hscan, ?_, ?_⟩
  · unfold body_sanitize
    rw [hscan]
  · intro xs ys l hl
    simp [List.filterMap_append, hl]

/-- **C4** (witness, at `bodyCorrupt`, whose second line is 90 hex-like
characters). -/
theorem c4_body_truncation_witness :
    body_sanitize bodyCorrupt =
      collapseNL (pyStrip (joinNL (((splitlines bodyCorrupt).take 1).map bodyKeep))) :=
  (c4_body_truncation bodyCorrupt 1 (by decide) (by decide)
    (by
      intro j hj
      interval_cases j
      decide)).2.1

/-! ### Claim C7 -/

/-- **C7** (counterexample): the noise filter does not preserve a kept
line's length and character positions — the processed line is the
*stripped* line, so the leading space of `" a"` is removed even though a
space is printable and the line is far below the 120-character threshold. -/
theorem c7_counterexample :
    clean_factiva_text (gs " a\nb") = gs "a\nb" ∧
    cleanLineKeep (gs " a") = some (gs "a") ∧
    gs "a" ≠ gs " a" := by
  refine ⟨by rfl, by rfl, by decide⟩

/-- **C7** (amended): `clean_factiva_text` processes the document line by
line with `cleanLineKeep` (so a dropped line removes only itself); a blank
line is kept as an empty line; a non-blank line is dropped exactly when its
*stripped* form is longer than 120 characters with hex-digit fraction above
0.75, and otherwise it is kept as its stripped form with every non-printable
character replaced by a space — preserving the length of the stripped line,
not of the original line. -/
theorem c7_noise_filter :
    (∀ t, clean_factiva_text t =
      pyStrip (collapseNL (joinNL ((splitlines t).filterMap cleanLineKeep)))) ∧
    (∀ l, (pyStrip l).isEmpty = true → cleanLineKeep l = some []) ∧
    (∀ l, (pyStrip l).isEmpty = false →
      (cleanLineKeep l = none ↔
        120 < (pyStrip l).length ∧
        3 * (pyStrip l).length < 4 * hexCount (pyStrip l)) ∧
      (∀ l2, cleanLineKeep l = some l2 →
        l2 = (pyStrip l).map (fun c => if pyIsPrintable c then c else ' ') ∧
        l2.length = (pyStrip l).length)) := by
  refine ⟨fun t => rfl, ?_, ?_⟩
  · intro l hl
    simp [cleanLineKeep, hl]
  · intro l hl
    constructor
    · constructor
      · intro hnone
        unfold cleanLineKeep at hnone
        rw [if_neg (by simp [hl])] at hnone
        by_cases hcond : 120 < (pyStrip l).length ∧
            3 * (pyStrip l).length < 4 * hexCount (pyStrip l)
        · exact hcond
        · rw [if_neg hcond] at hnone
          exact absurd hnone (by simp)
      · intro hcond
        unfold cleanLineKeep
        rw [if_neg (by simp [hl]), if_pos hcond]
    · intro l2 hl2
      unfold cleanLineKeep at hl2
      rw [if_neg (by simp [hl])] at hl2
      by_cases hcond : 120 < (pyStrip l).length ∧
          3 * (pyStrip l).length < 4 * hexCount (pyStrip l)
      · rw [if_pos hcond] at hl2
        exact absurd hl2 (by simp)
      · rw [if_neg hcond] at hl2
        have : (pyStrip l).map (fun c => if pyIsPrintable c then c else ' ') = l2 := by
          simpa using hl2
        subst this
        exact ⟨rfl, by rw [List.length_map]⟩

/-- **C7** (witness for the amended theorem, at the line `" a"`). -/
theorem c7_noise_filter_witness :
    gs "a" = (pyStrip (gs " a")).map (fun c => if pyIsPrintable c then c else ' ') ∧
    (gs "a").length = (pyStrip (gs " a")).length :=
  ((c7_noise_filter.2.2 (gs " a") (by decide)).2 (gs "a") (by rfl))

/-! ### Claim C5 -/

theorem classifyParts_eq :
    ∀ ps : List Str,
      classifyParts ps =
        (ps.filter (fun p => !(GEO.contains p) && !industryHit p),
         ps.filter (fun p => GEO.contains p),
         ps.filter (fun p => !(GEO.contains p) && industryHit p)) := by
  intro ps
  induction ps with
  | nil => rfl
  | cons p rest ih =>
    unfold classifyParts
    rw [ih]
    by_cases hg : p ∈ GEO
    · simp [List.filter_cons, hg]
    · cases hi2 : industryHit p
      · simp [List.filter_cons, hg, hi2]
      · simp [List.filter_cons, hg, hi2]

/-- **C5**: the classifier routes every trimmed non-empty comma-separated
token into exactly one bucket by priority — exact membership in `GEO` makes
it a region, otherwise a case-insensitive substring hit on
`INDUSTRY_HINTS` makes it an industry, otherwise it is a topic — so the
three buckets are the three complementary filters of the token list, and on
`"China, Technology, Quantum Computing"` the result is
regions `["China"]`, industries `["Technology"]`,
topics `["Quantum Computing"]`. -/
theorem c5_classifier :
    (∀ kw, split_keywords kw =
      ((kwParts kw).filter (fun p => !(GEO.contains p) && !industryHit p),
       (kwParts kw).filter (fun p => GEO.contains p),
       (kwParts kw).filter (fun p => !(GEO.contains p) && industryHit p))) ∧
    (∀ kw p, p ∈ kwParts kw →
      ((p ∈ (split_keywords kw).2.1 ↔ GEO.contains p = true) ∧
       (p ∈ (split_keywords kw).2.2 ↔
         (GEO.contains p = false ∧ industryHit p = true)) ∧
       (p ∈ (split_keywords kw).1 ↔
         (GEO.contains p = false ∧ industryHit p = false)))) ∧
    split_keywords (gs "China, Technology, Quantum Computing") =
      ([gs "Quantum Computing"], [gs "China"], [gs "Technology"]) := by
  have hchar : ∀ kw, split_keywords kw =
      ((kwParts kw).filter (fun p => !(GEO.contains p) && !industryHit p),
       (kwParts kw).filter (fun p => GEO.contains p),
       (kwParts kw).filter (fun p => !(GEO.contains p) && industryHit p)) := by
    intro kw
    unfold split_keywords
    exact classifyParts_eq (kwParts kw)
  refine ⟨hchar, ?_, by decide⟩
  intro kw p hp
  rw [hchar kw]
  simp only [List.mem_filter, Bool.and_eq_true, Bool.not_eq_true']
  constructor
  · constructor
    · intro h
      exact h.2
    · intro h
      exact ⟨hp, h⟩
  constructor
  · constructor
    · intro h
      exact h.2
    · intro h
      exact ⟨hp, h⟩
  · constructor
    · intro h
      exact h.2
    · intro h
      exact ⟨hp, h⟩

/-- **C5** (witness, at the token `China` of the example keyword string). -/
theorem c5_classifier_witness :
    gs "China" ∈ (split_keywords (gs "China, Technology, Quantum Computing")).2.1 ↔
      GEO.contains (gs "China") = true :=
  (c5_classifier.2.1 (gs "China, Technology, Quantum Computing") (gs "China")
    (by decide)).1

/-! ### Claim C6 -/

/-- **C6**: the candidate IPD line (the next non-blank line after the
cursor) is accepted exactly when its stripped form is 2 to 10
uppercase-alphanumeric characters, in which case the cursor advances past
it; on mismatch the IPD field is empty and the cursor stays on the
candidate line, so the language scan examines that same line first — in
particular if the candidate line itself carries a language marker, the scan
returns it immediately.  Inside a record, the IPD and language fields are
exactly the results of these two composed steps. -/
theorem c6_ipd_step :
    ∀ lines p,
      (isIpdCode (ipdCand lines p) = true →
        ipdStep lines p = (ipdCand lines p, skipBlank lines p + 1)) ∧
      (isIpdCode (ipdCand lines p) = false →
        ipdStep lines p = ([], skipBlank lines p) ∧
        (∀ fuel, skipBlank lines p < lines.length →
          detect_language (lineAt lines (skipBlank lines p)) ≠ [] →
          langScan lines (fuel + 1) (skipBlank lines p) =
            (detect_language (lineAt lines (skipBlank lines p)),
              skipBlank lines p))) ∧
      (isIpdCode (ipdCand lines p) = true ↔
        2 ≤ (ipdCand lines p).length ∧ (ipdCand lines p).length ≤ 10 ∧
        ∀ c ∈ ipdCand lines p, c.isUpper = true ∨ c.isDigit = true) ∧
      (∀ wcI j dt wc,
        (mkArticle1 lines wcI j dt wc).ipd = (ipdState lines wcI).1 ∧
        (mkArticle1 lines wcI j dt wc).language = (langState lines wcI).1 ∧
        langState lines wcI = langScan lines 25 (ipdState lines wcI).2) := by
  intro lines p
  refine ⟨?_, ?_, ?_, ?_⟩
  · intro h
    unfold ipdStep
    unfold ipdCand at h
    rw [if_pos h]
    unfold ipdCand
    rfl
  · intro h
    constructor
    · unfold ipdStep
      unfold ipdCand at h
      rw [if_neg (by rw [h]; simp)]
    · intro fuel hlt hlang
      unfold langScan
      rw [if_neg (by omega)]
      rw [if_neg (by simpa using hlang)]
  · unfold isIpdCode
    simp [List.all_eq_true, Bool.and_eq_true, decide_eq_true_eq, Bool.or_eq_true]
    tauto
  · intro wcI j dt wc
    exact ⟨rfl, rfl, rfl⟩

/-- **C6** (witness, at a single-line document whose candidate line is the
language marker `英文`). -/
theorem c6_ipd_step_witness :
    ipdStep [gs "英文"] 0 = ([], skipBlank [gs "英文"] 0) ∧
    langScan [gs "英文"] 25 (skipBlank [gs "英文"] 0) =
      (detect_language (lineAt [gs "英文"] (skipBlank [gs "英文"] 0)),
        skipBlank [gs "英文"] 0) := by
  have h := (c6_ipd_step [gs "英文"] 0).2.1 (by decide)
  exact ⟨h.1, h.2 24 (by decide) (by decide)⟩

/-! ### Claim C9 -/

/-- **C9** (counterexample): on the spec's own sample the company extractor
returns the empty list, not `["Acme Robotics Inc.", "Globex Corp."]`: the
pattern ends with `\b`, and after a dot-terminated suffix such as `Inc.` a
word boundary requires the next character to be a word character, which a
following space is not. -/
theorem c9_counterexample :
    extract_companies companySampleA = [] ∧
    extract_companies companySampleA ≠
      [gs "Acme Robotics Inc.", gs "Globex Corp."] := by
  refine ⟨by rfl, by decide⟩

/-- **C9** (amended): the extractor returns the sorted, deduplicated
capitalized-token runs followed by a corporate suffix *and a closing word
boundary*; because of that boundary, a dot-terminated suffix matches only
when the character after the dot is a word character.  So the spec's sample
yields `[]`; the same sample with the suffix `Group` yields
`["Globex Group"]`; and `"Acme Robotics Inc.X"` yields
`["Acme Robotics Inc."]`. -/
theorem c9_company_extraction :
    extract_companies companySampleA = [] ∧
    extract_companies companySampleB = [gs "Globex Group"] ∧
    extract_companies (gs "Acme Robotics Inc.X") = [gs "Acme Robotics Inc."] := by
  exact ⟨by rfl, by rfl, by rfl⟩

/-! ### Claim C8: split/join lemmas -/

theorem consHead_cons (c : Char) (hd : Str) (tl : List Str) :
    consHead c (hd :: tl) = (c :: hd) :: tl := rfl

theorem splitComma_cons (c : Char) (rest : Str) :
    splitComma (c :: rest) =
      if c = ',' then [] :: splitComma rest else consHead c (splitComma rest) := rfl

theorem splitComma_ne_nil : ∀ s : Str, splitComma s ≠ [] := by
  intro s
  cases s with
  | nil => simp [splitComma]
  | cons c rest =>
    rw [splitComma_cons]
    by_cases hc : c = ','
    · simp [hc]
    · rw [if_neg hc]
      cases h : splitComma rest with
      | nil => simp [consHead]
      | cons hd tl => simp [consHead]

theorem splitComma_no_comma_mem :
    ∀ (s : Str) (p : Str), p ∈ splitComma s → ',' ∉ p := by
  intro s
  induction s with
  | nil =>
    intro p hp
    simp [splitComma] at hp
    subst hp
    simp
  | cons c rest ih =>
    intro p hp
    rw [splitComma_cons] at hp
    by_cases hc : c = ','
    · rw [if_pos hc] at hp
      rcases List.mem_cons.mp hp with h1 | h2
      · subst h1; simp
      · exact ih p h2
    · rw [if_neg hc] at hp
      cases h : splitComma rest with
      | nil => exact absurd h (splitComma_ne_nil rest)
      | cons hd tl =>
        rw [h, consHead_cons] at hp
        rcases List.mem_cons.mp hp with h1 | h2
        · subst h1
          intro hmem
          rcases List.mem_cons.mp hmem with he | hm
          · exact hc he.symm
          · exact ih hd (by rw [h]; exact List.mem_cons_self hd tl) hm
        · exact ih p (by rw [h]; exact List.mem_cons_of_mem hd h2)

theorem splitComma_of_no_comma :
    ∀ t : Str, ',' ∉ t → splitComma t = [t] := by
  intro t
  induction t with
  | nil => intro; rfl
  | cons c rest ih =>
    intro h
    have hc : ¬c = ',' := by
      intro he
      exact h (by rw [he]; exact List.mem_cons_self ',' rest)
    have hrest : ',' ∉ rest := fun hm => h (List.mem_cons_of_mem c hm)
    rw [splitComma_cons, if_neg hc, ih hrest, consHead_cons]

theorem splitComma_append :
    ∀ (t s : Str), ',' ∉ t → splitComma (t ++ ',' :: s) = t :: splitComma s := by
  intro t
  induction t with
  | nil =>
    intro s _
    show splitComma (',' :: s) = [] :: splitComma s
    rw [splitComma_cons, if_pos rfl]
  | cons c rest ih =>
    intro s h
    have hc : ¬c = ',' := by
      intro he
      exact h (by rw [he]; exact List.mem_cons_self ',' rest)
    have hrest : ',' ∉ rest := fun hm => h (List.mem_cons_of_mem c hm)
    show splitComma (c :: (rest ++ ',' :: s)) = (c :: rest) :: splitComma s
    rw [splitComma_cons, if_neg hc, ih s hrest, consHead_cons]

theorem pyStrip_cons_space (x : Str) : pyStrip (' ' :: x) = pyStrip x := by
  unfold pyStrip lstrip
  rw [List.dropWhile_cons, if_pos (by decide : pyIsSpace ' ' = true)]

theorem lstrip_no_leading_space :
    ∀ (s : Str) (c : Char), (lstrip s).head? = some c → ¬pyIsSpace c = true := by
  intro s
  induction s with
  | nil => intro c h; simp [lstrip] at h
  | cons a rest ih =>
    intro c h
    unfold lstrip at h
    rw [List.dropWhile_cons] at h
    by_cases ha : pyIsSpace a = true
    · rw [if_pos ha] at h
      exact ih c h
    · rw [if_neg ha] at h
      simp at h
      rw [← h]
      exact ha

theorem lstrip_of_head_not (s : Str)
    (h : ∀ c, s.head? = some c → ¬pyIsSpace c = true) : lstrip s = s := by
  cases s with
  | nil => rfl
  | cons a rest =>
    unfold lstrip
    rw [List.dropWhile_cons, if_neg (h a rfl)]

theorem pyStrip_idem (s : Str) : pyStrip (pyStrip s) = pyStrip s := by
  unfold pyStrip
  have h1 : lstrip (rstrip (lstrip s)) = rstrip (lstrip s) := by
    apply lstrip_of_head_not
    intro c hc
    obtain ⟨t, ht⟩ := List.rdropWhile_prefix pyIsSpace (lstrip s)
    cases hr : rstrip (lstrip s) with
    | nil => rw [hr] at hc; simp at hc
    | cons a r =>
      have hca : c = a := by
        rw [hr] at hc
        simpa using hc.symm
      have hhead : (lstrip s).head? = some a := by
        have : rstrip (lstrip s) ++ t = lstrip s := ht
        rw [hr] at this
        rw [← this]
        rfl
      rw [hca]
      exact lstrip_no_leading_space s a hhead
  rw [h1]
  exact List.rdropWhile_idempotent pyIsSpace (lstrip s)

theorem pyStrip_sublist (s : Str) : List.Sublist (pyStrip s) s := by
  unfold pyStrip rstrip lstrip
  exact ((List.rdropWhile_prefix pyIsSpace (s.dropWhile pyIsSpace)).sublist).trans
    (List.dropWhile_sublist pyIsSpace)

theorem kwParts_facts (kw : Str) :
    ∀ p ∈ kwParts kw, p ≠ [] ∧ pyStrip p = p ∧ ',' ∉ p := by
  intro p hp
  unfold kwParts at hp
  obtain ⟨hp2, hpne⟩ := List.mem_filter.mp hp
  obtain ⟨q, hq, hpq⟩ := List.mem_map.mp hp2
  refine ⟨by simpa using hpne, ?_, ?_⟩
  · rw [← hpq]
    exact pyStrip_idem q
  · rw [← hpq]
    intro hmem
    exact splitComma_no_comma_mem kw q hq ((pyStrip_sublist q).subset hmem)

theorem kwParts_joinComma :
    ∀ ts : List Str, (∀ t ∈ ts, t ≠ [] ∧ pyStrip t = t ∧ ',' ∉ t) →
      kwParts (joinComma ts) = ts := by
  intro ts
  induction ts with
  | nil => intro; rfl
  | cons t ts2 ih =>
    intro h
    obtain ⟨ht_ne, ht_strip, ht_comma⟩ := h t (List.mem_cons_self t ts2)
    cases ts2 with
    | nil =>
      show kwParts t = [t]
      unfold kwParts
      rw [splitComma_of_no_comma t ht_comma]
      simp [ht_strip, ht_ne]
    | cons t2 ts3 =>
      have hrest := ih (fun x hx => h x (List.mem_cons_of_mem t hx))
      show kwParts (t ++ ',' :: ' ' :: joinComma (t2 :: ts3)) = t :: t2 :: ts3
      unfold kwParts
      rw [splitComma_append t _ ht_comma]
      cases hJ : splitComma (joinComma (t2 :: ts3)) with
      | nil => exact absurd hJ (splitComma_ne_nil _)
      | cons hd tl =>
        have hsp : splitComma (' ' :: joinComma (t2 :: ts3)) = (' ' :: hd) :: tl := by
          rw [splitComma_cons, if_neg (by decide : ¬(' ' = ',')), hJ, consHead_cons]
        rw [hsp]
        have h2 : ((hd :: tl).map pyStrip).filter (fun p => !p.isEmpty) = t2 :: ts3 := by
          have h3 := hrest
          unfold kwParts at h3
          rw [hJ] at h3
          exact h3
        rw [List.map_cons, List.map_cons, pyStrip_cons_space, ht_strip,
          List.filter_cons, if_pos (by simpa using ht_ne), ← List.map_cons]
        rw [h2]

theorem classifyParts_all_geo :
    ∀ ts : List Str, (∀ p ∈ ts, p ∈ GEO) → classifyParts ts = ([], ts, []) := by
  intro ts
  induction ts with
  | nil => intro; rfl
  | cons p rest ih =>
    intro h
    have hp := h p (List.mem_cons_self p rest)
    have hrest := ih (fun x hx => h x (List.mem_cons_of_mem p hx))
    simp [classifyParts, hp, hrest]

theorem classifyParts_all_ind :
    ∀ ts : List Str, (∀ p ∈ ts, p ∉ GEO ∧ industryHit p = true) →
      classifyParts ts = ([], [], ts) := by
  intro ts
  induction ts with
  | nil => intro; rfl
  | cons p rest ih =>
    intro h
    obtain ⟨hp1, hp2⟩ := h p (List.mem_cons_self p rest)
    have hrest := ih (fun x hx => h x (List.mem_cons_of_mem p hx))
    simp [classifyParts, hp1, hp2, hrest]

theorem classifyParts_all_top :
    ∀ ts : List Str, (∀ p ∈ ts, p ∉ GEO ∧ industryHit p = false) →
      classifyParts ts = (ts, [], []) := by
  intro ts
  induction ts with
  | nil => intro; rfl
  | cons p rest ih =>
    intro h
    obtain ⟨hp1, hp2⟩ := h p (List.mem_cons_self p rest)
    have hrest := ih (fun x hx => h x (List.mem_cons_of_mem p hx))
    simp [classifyParts, hp1, hp2, hrest]

/-- **C8**: the classifier is idempotent bucket-wise — rejoining any single
bucket with `", "` and re-running `split_keywords` reproduces exactly that
bucket and puts nothing in the other two. -/
theorem c8_idempotent :
    ∀ kw,
      split_keywords (joinComma (split_keywords kw).1) =
        ((split_keywords kw).1, [], []) ∧
      split_keywords (joinComma (split_keywords kw).2.1) =
        ([], (split_keywords kw).2.1, []) ∧
      split_keywords (joinComma (split_keywords kw).2.2) =
        ([], [], (split_keywords kw).2.2) := by
  intro kw
  have hchar : split_keywords kw =
      ((kwParts kw).filter (fun p => !(GEO.contains p) && !industryHit p),
       (kwParts kw).filter (fun p => GEO.contains p),
       (kwParts kw).filter (fun p => !(GEO.contains p) && industryHit p)) :=
    classifyParts_eq (kwParts kw)
  refine ⟨?_, ?_, ?_⟩
  · have hsub : ∀ p ∈ (split_keywords kw).1,
        p ∈ kwParts kw ∧ p ∉ GEO ∧ industryHit p = false := by
      intro p hp
      rw [hchar] at hp
      obtain ⟨hmem, hcond⟩ := List.mem_filter.mp hp
      simp only [Bool.and_eq_true, Bool.not_eq_true'] at hcond
      refine ⟨hmem, ?_, hcond.2⟩
      simpa using hcond.1
    have hjoin : kwParts (joinComma (split_keywords kw).1) = (split_keywords kw).1 :=
      kwParts_joinComma _ (fun t ht => kwParts_facts kw t (hsub t ht).1)
    calc split_keywords (joinComma (split_keywords kw).1)
        = classifyParts (kwParts (joinComma (split_keywords kw).1)) := rfl
      _ = classifyParts (split_keywords kw).1 := by rw [hjoin]
      _ = ((split_keywords kw).1, [], []) :=
          classifyParts_all_top _ (fun p hp => (hsub p hp).2)
  · have hsub : ∀ p ∈ (split_keywords kw).2.1, p ∈ kwParts kw ∧ p ∈ GEO := by
      intro p hp
      rw [hchar] at hp
      obtain ⟨hmem, hcond⟩ := List.mem_filter.mp hp
      refine ⟨hmem, by simpa using hcond⟩
    have hjoin : kwParts (joinComma (split_keywords kw).2.1) =
        (split_keywords kw).2.1 :=
      kwParts_joinComma _ (fun t ht => kwParts_facts kw t (hsub t ht).1)
    calc split_keywords (joinComma (split_keywords kw).2.1)
        = classifyParts (kwParts (joinComma (split_keywords kw).2.1)) := rfl
      _ = classifyParts (split_keywords kw).2.1 := by rw [hjoin]
      _ = ([], (split_keywords kw).2.1, []) :=
          classifyParts_all_geo _ (fun p hp => (hsub p hp).2)
  · have hsub : ∀ p ∈ (split_keywords kw).2.2,
        p ∈ kwParts kw ∧ p ∉ GEO ∧ industryHit p = true := by
      intro p hp
      rw [hchar] at hp
      obtain ⟨hmem, hcond⟩ := List.mem_filter.mp hp
      simp only [Bool.and_eq_true, Bool.not_eq_true'] at hcond
      refine ⟨hmem, ?_, hcond.2⟩
      simpa using hcond.1
    have hjoin : kwParts (joinComma (split_keywords kw).2.2) =
        (split_keywords kw).2.2 :=
      kwParts_joinComma _ (fun t ht => kwParts_facts kw t (hsub t ht).1)
    calc split_keywords (joinComma (split_keywords kw).2.2)
        = classifyParts (kwParts (joinComma (split_keywords kw).2.2)) := rfl
      _ = classifyParts (split_keywords kw).2.2 := by rw [hjoin]
      _ = ([], [], (split_keywords kw).2.2) :=
          classifyParts_all_ind _ (fun p hp => (hsub p hp).2)

end Factiva
